import Mathlib

/-!
# BurryBot core: shallow embedding and verification

This file embeds the core of the BurryBot prediction-market trading
simulator — the Ledger (`Portfolio`), the Risk Gate (`RiskManager`), the
historical backtest loop (`BacktestEngine.run`) and the live paper-trading
tick/refresh loops (`PaperTrader`) — into Lean, and proves the stated
correctness properties about the embedding.

Conventions of the embedding:
* Python floats are modelled as rationals (`ℚ`); note `ℚ` division by zero
  is 0 where Python would raise, every such site is guarded in the code.
* Python dicts keyed by token id are modelled as association lists
  (`List (String × ℚ)` for price dicts, a `List Position` keyed by the
  `token_id` field for `Portfolio.positions`).
* Timestamps are abstract (`ℕ`): no claim depends on wall-clock values.
* `uuid`-generated trade ids and logging side effects are omitted; reason
  strings are kept without Python's printf-style number interpolation.
-/

namespace BurryBot

/-- models.Signal: a strategy decision.  `action ∈ {"BUY","SELL","HOLD"}`,
`outcome` is the side label ("YES"/"NO"), `price` the reference price and
`confidence ∈ [0,1]`. -/
structure Signal where
  action : String
  token_id : String
  outcome : String
  price : ℚ
  reason : String
  confidence : ℚ
  deriving Repr, DecidableEq

/-- models.Position: one open holding, keyed by `token_id` in the portfolio. -/
structure Position where
  token_id : String
  outcome : String
  market_slug : String
  shares : ℚ
  avg_cost : ℚ
  opened_at : ℕ
  deriving Repr, DecidableEq

/-- models.Trade: an immutable record of one executed BUY or SELL. -/
structure Trade where
  token_id : String
  market_slug : String
  action : String
  outcome : String
  shares : ℚ
  price : ℚ
  fee : ℚ
  total_cost : ℚ
  timestamp : ℕ
  pnl : ℚ
  deriving Repr, DecidableEq

/-- models.Market: identity and the two outcome-token ids.  As in the source,
a missing NO token is the empty string (Python falsy).  `end_date` handling
is modelled by a boolean "past end" predicate supplied at each refresh. -/
structure Market where
  slug : String
  question : String
  yes_token_id : String
  no_token_id : String
  deriving Repr, DecidableEq

/-- A Python `Dict[str, float]` of current prices. -/
abbrev PriceDict := List (String × ℚ)

/-- `d.get(k, default)` on a price dict. -/
def dictGet (d : PriceDict) (k : String) (default : ℚ) : ℚ :=
  match d with
  | [] => default
  | (k', v) :: rest => if k' = k then v else dictGet rest k default

/-- `d[k] = v` on a price dict: overwrite the existing binding or append. -/
def dictSet (d : PriceDict) (k : String) (v : ℚ) : PriceDict :=
  match d with
  | [] => [(k, v)]
  | (k', v') :: rest => if k' = k then (k, v) :: rest else (k', v') :: dictSet rest k v

/-- `positions.get(token_id)`: first position with the given token id. -/
def find_position : List Position → String → Option Position
  | [], _ => none
  | q :: rest, t => if q.token_id = t then some q else find_position rest t

/-- In-place mutation of the position stored under a token id. -/
def update_position (l : List Position) (t : String) (f : Position → Position) :
    List Position :=
  l.map (fun q => if q.token_id = t then f q else q)

/-- `del positions[token_id]` (token ids are unique keys in the dict). -/
def remove_position : List Position → String → List Position
  | [], _ => []
  | q :: rest, t =>
      if q.token_id = t then remove_position rest t else q :: remove_position rest t

/-! ## Configuration constants (config.py) -/

def DEFAULT_STARTING_CASH : ℚ := 1000

/-- config.MAX_POSITION_SIZE_FRACTION = 0.05 -/
def MAX_POSITION_SIZE_FRACTION : ℚ := 1/20

/-- config.MAX_TOTAL_EXPOSURE_FRACTION = 0.80 -/
def MAX_TOTAL_EXPOSURE_FRACTION : ℚ := 4/5

/-- config.TRADE_FEE_RATE = 0.002 -/
def TRADE_FEE_RATE : ℚ := 1/500

/-! ## The Ledger (portfolio.Portfolio)

`execute_buy`/`execute_sell` are modelled as pure state transformers
returning the new portfolio together with the executed trade; a rejected
order returns the portfolio unchanged and `none` (the Python method mutates
`self` and returns `None`). -/

structure Portfolio where
  cash : ℚ
  starting_cash : ℚ
  positions : List Position
  trade_log : List Trade
  deriving Repr, DecidableEq

namespace Portfolio

def mk_fresh (starting_cash : ℚ) : Portfolio :=
  { cash := starting_cash, starting_cash := starting_cash
    positions := [], trade_log := [] }

/-- Portfolio.get_position -/
def get_position (p : Portfolio) (token_id : String) : Option Position :=
  find_position p.positions token_id

/-- Portfolio.get_total_exposure: Σ shares × current_prices.get(token, avg_cost). -/
def get_total_exposure (p : Portfolio) (current_prices : PriceDict) : ℚ :=
  (p.positions.map
    (fun pos => pos.shares * dictGet current_prices pos.token_id pos.avg_cost)).sum

/-- Portfolio.total_value = cash + total exposure. -/
def total_value (p : Portfolio) (current_prices : PriceDict) : ℚ :=
  p.cash + p.get_total_exposure current_prices

/-- Portfolio.execute_buy.  Spend `trade_size_usdc` (plus fee) on
`signal.token_id` at `signal.price`; rejected when the price is non-positive
or cash cannot cover cost plus fee. -/
def execute_buy (fee_rate : ℚ) (p : Portfolio) (signal : Signal)
    (market_slug : String) (trade_size_usdc : ℚ) (timestamp : ℕ) :
    Portfolio × Option Trade :=
  if signal.price ≤ 0 then (p, none)
  else
    let fee := trade_size_usdc * fee_rate
    let total_cost := trade_size_usdc + fee
    if p.cash < total_cost then (p, none)
    else
      let shares := trade_size_usdc / signal.price
      let token_id := signal.token_id
      let new_positions :=
        match find_position p.positions token_id with
        | some _ =>
            update_position p.positions token_id (fun pos =>
              { pos with
                  avg_cost := (pos.shares * pos.avg_cost + trade_size_usdc)
                    / (pos.shares + shares)
                  shares := pos.shares + shares })
        | none =>
            p.positions ++ [{ token_id := token_id, outcome := signal.outcome
                              market_slug := market_slug, shares := shares
                              avg_cost := signal.price, opened_at := timestamp }]
      let trade : Trade :=
        { token_id := token_id, market_slug := market_slug, action := "BUY"
          outcome := signal.outcome, shares := shares, price := signal.price
          fee := fee, total_cost := total_cost, timestamp := timestamp, pnl := 0 }
      ({ p with cash := p.cash - total_cost, positions := new_positions
                trade_log := p.trade_log ++ [trade] }, some trade)

/-- Portfolio.execute_sell: liquidate the entire held quantity of
`signal.token_id`, or reject when no position is open. -/
def execute_sell (fee_rate : ℚ) (p : Portfolio) (signal : Signal)
    (market_slug : String) (timestamp : ℕ) : Portfolio × Option Trade :=
  match find_position p.positions signal.token_id with
  | none => (p, none)
  | some pos =>
      let price := signal.price
      let proceeds := pos.shares * price
      let fee := proceeds * fee_rate
      let net_proceeds := proceeds - fee
      let cost_basis := pos.shares * pos.avg_cost
      let pnl := net_proceeds - cost_basis
      let trade : Trade :=
        { token_id := signal.token_id, market_slug := market_slug
          action := "SELL", outcome := pos.outcome, shares := pos.shares
          price := price, fee := fee, total_cost := -net_proceeds
          timestamp := timestamp, pnl := pnl }
      ({ p with cash := p.cash + net_proceeds
                positions := remove_position p.positions signal.token_id
                trade_log := p.trade_log ++ [trade] }, some trade)

end Portfolio

/-! ## The Risk Gate (risk_manager.RiskManager) -/

structure RiskManager where
  max_position_fraction : ℚ
  max_exposure_fraction : ℚ
  deriving Repr, DecidableEq

/-- RiskManager() as constructed from config.py. -/
def the_risk_manager : RiskManager :=
  { max_position_fraction := MAX_POSITION_SIZE_FRACTION
    max_exposure_fraction := MAX_TOTAL_EXPOSURE_FRACTION }

/-- The current market value of any existing holding in the signal's token,
as computed inside `check_signal` ("existing_value"). -/
def existing_position_value (p : Portfolio) (token_id : String)
    (current_prices : PriceDict) : ℚ :=
  match p.get_position token_id with
  | none => 0
  | some pos => pos.shares * dictGet current_prices token_id pos.avg_cost

namespace RiskManager

/-- RiskManager.check_signal → (allowed, trade_size, reason).  Mirrors the
source's BUY sizing chain: portfolio-value guard, position cap, exposure
cap, cash guard, `min` of the three rooms, confidence scaling (0.5 fallback
when confidence is not positive), then the $1 minimum floor. -/
def check_signal (rm : RiskManager) (signal : Signal) (portfolio : Portfolio)
    (current_prices : PriceDict) : Bool × ℚ × String :=
  if signal.action = "HOLD" then (true, 0, "HOLD — no trade needed")
  else if signal.action = "SELL" then
    match portfolio.get_position signal.token_id with
    | none => (false, 0, "SELL blocked: we don't own this token")
    | some _ => (true, 0, "SELL allowed")
  else if signal.action = "BUY" then
    let total_value := portfolio.total_value current_prices
    if total_value ≤ 0 then
      (false, 0, "BUY blocked: portfolio value is zero or negative")
    else
      let max_trade_size := total_value * rm.max_position_fraction
      let existing_value := existing_position_value portfolio signal.token_id current_prices
      let available_for_this_position := max 0 (max_trade_size - existing_value)
      if available_for_this_position ≤ 0 then
        (false, 0, "BUY blocked: already at max position size")
      else
        let current_exposure := portfolio.get_total_exposure current_prices
        let max_total_exposure := total_value * rm.max_exposure_fraction
        let room_for_more := max_total_exposure - current_exposure
        if room_for_more ≤ 0 then
          (false, 0, "BUY blocked: total exposure already at limit")
        else if portfolio.cash ≤ 0 then
          (false, 0, "BUY blocked: no cash available")
        else
          let trade_size :=
            min available_for_this_position (min room_for_more portfolio.cash) *
              (if 0 < signal.confidence then signal.confidence else 1/2)
          if trade_size < 1 then
            (false, 0, "BUY blocked: trade size too small (< $1.00)")
          else
            (true, trade_size, "BUY approved")
  else (false, 0, "Unknown signal action")

end RiskManager

/-! ## The HistoricalStepper (backtest_engine.BacktestEngine.run)

The engine turns each token's bars into a time-sorted price column and
iterates `bar_index` from 1 to `max_bars − 1`.  The embedding works on the
sorted per-token price column directly (`List ℚ`); a strategy is a pure
function of (token, history, current price, current time).  Every call the
loop makes to `strategy.generate_signal` is recorded as an `Invocation`, so
the no-lookahead property can be stated about exactly what is passed. -/

/-- strategy_base.StrategyBase.generate_signal as a pure function.  The
time argument is the bar index / tick counter (timestamps are abstract). -/
abbrev Strategy := String → List ℚ → ℚ → ℕ → Signal

/-- One call to `strategy.generate_signal` made by a stepping engine. -/
structure Invocation where
  token_id : String
  price_history : List ℚ
  current_price : ℚ
  bar_index : ℕ
  deriving Repr, DecidableEq

/-- Per-token price columns: token id → sorted list of bar prices
(the "price" column of the DataFrame built in `run`). -/
abbrev PriceData := List (String × List ℚ)

/-- `price_dfs.get(token_id)`, defaulting to an empty series. -/
def seriesFor (price_data : PriceData) (token_id : String) : List ℚ :=
  match price_data with
  | [] => []
  | (k, s) :: rest => if k = token_id then s else seriesFor rest token_id

/-- `max_bars = max(len(df) for df in price_dfs.values())` (0 when empty). -/
def max_bars (price_data : PriceData) : ℕ :=
  (price_data.map (fun kv => kv.2.length)).foldr max 0

structure EngineState where
  portfolio : Portfolio
  current_prices : PriceDict
  invocations : List Invocation
  equity_curve : List ℚ
  deriving Repr, DecidableEq

namespace BacktestEngine

/-- The body of the inner `for market in markets` loop at one `bar_index`:
skip the market when its series has no bar at this index; otherwise record
the current price, call the strategy on `series[0:bar_index]`, gate the
signal and execute it. -/
def run_bar_market (fee_rate : ℚ) (rm : RiskManager) (strategy : Strategy)
    (price_data : PriceData) (bar_index : ℕ) (st : EngineState)
    (market : Market) : EngineState :=
  let token_id := market.yes_token_id
  let series := seriesFor price_data token_id
  if bar_index < series.length then
    let current_price := series.getD bar_index 0
    let current_prices := dictSet st.current_prices token_id current_price
    let history := series.take bar_index
    let signal := strategy token_id history current_price bar_index
    let st := { st with
      current_prices := current_prices
      invocations := st.invocations ++
        [{ token_id := token_id, price_history := history
           current_price := current_price, bar_index := bar_index }] }
    let checked := rm.check_signal signal st.portfolio current_prices
    if checked.1 = false then st
    else if signal.action = "BUY" then
      { st with portfolio :=
          (st.portfolio.execute_buy fee_rate signal market.slug checked.2.1 bar_index).1 }
    else if signal.action = "SELL" then
      { st with portfolio :=
          (st.portfolio.execute_sell fee_rate signal market.slug bar_index).1 }
    else st
  else st

/-- One `bar_index` iteration: reset the per-bar price dict, process every
market in order, then append one equity sample. -/
def run_bar (fee_rate : ℚ) (rm : RiskManager) (strategy : Strategy)
    (markets : List Market) (price_data : PriceData) (st : EngineState)
    (bar_index : ℕ) : EngineState :=
  let st := { st with current_prices := [] }
  let st := markets.foldl (run_bar_market fee_rate rm strategy price_data bar_index) st
  { st with equity_curve :=
      st.equity_curve ++ [st.portfolio.total_value st.current_prices] }

/-- BacktestEngine._close_all_positions: force-sell one token at the final
price (falling back to `avg_cost`), with a synthetic SELL signal. -/
def close_position (fee_rate : ℚ) (final_prices : PriceDict) (close_time : ℕ)
    (p : Portfolio) (token_id : String) : Portfolio :=
  match find_position p.positions token_id with
  | none => p
  | some pos =>
      let price := dictGet final_prices token_id pos.avg_cost
      let sell_signal : Signal :=
        { action := "SELL", token_id := token_id, outcome := pos.outcome
          price := price, reason := "End of backtest — forced liquidation"
          confidence := 1 }
      (p.execute_sell fee_rate sell_signal pos.market_slug close_time).1

def close_all_positions (fee_rate : ℚ) (final_prices : PriceDict)
    (close_time : ℕ) (p : Portfolio) : Portfolio :=
  (p.positions.map (·.token_id)).foldl (close_position fee_rate final_prices close_time) p

/-- `final_prices`: the last bar of every non-empty series. -/
def final_prices (price_data : PriceData) : PriceDict :=
  price_data.filterMap (fun kv => (kv.2.getLast?).map (fun pr => (kv.1, pr)))

/-- BacktestEngine.run's main loop followed by the forced close: iterate
`bar_index` over `1 … max_bars − 1`, then liquidate what remains at the
final prices (metrics computation is out of scope of the embedding). -/
def run (fee_rate : ℚ) (rm : RiskManager) (strategy : Strategy)
    (markets : List Market) (price_data : PriceData) (p0 : Portfolio) :
    EngineState :=
  let init : EngineState :=
    { portfolio := p0, current_prices := [], invocations := [], equity_curve := [] }
  let st := (List.range' 1 (max_bars price_data - 1)).foldl
    (run_bar fee_rate rm strategy markets price_data) init
  let closed := close_all_positions fee_rate (final_prices price_data)
    (max_bars price_data) st.portfolio
  { st with portfolio := closed }

end BacktestEngine

/-! ## The LiveStepper (paper_trader.PaperTrader)

The live session state carries the portfolio, the in-memory per-token bar
history (prices; timestamps abstract), the watch list, the expired-token
blacklist and the known-token set.  A tick processes each watched market's
YES and NO tokens in order (`_run_tick`); a refresh (`_refresh_markets`
with `initial=False`) force-liquidates expired markets
(`_handle_expired_markets`) and adds newly discovered ones.  External
collaborators are inputs: the freshly fetched market list, the per-token
"latest bar" answer, and the `end_date ≤ now` comparison as a boolean
predicate on markets.  `risk_checks` counts the calls made to
`RiskManager.check_signal`, and `forced_sells` logs every synthetic
expiry liquidation (signal and resulting trade), so the claims about what
reaches the gate and about forced SELLs can be stated. -/

structure TraderState where
  portfolio : Portfolio
  markets : List Market
  price_history : List (String × List ℚ)
  expired_token_ids : List String
  known_token_ids : List String
  invocations : List Invocation
  current_prices : PriceDict
  equity_curve : List ℚ
  risk_checks : ℕ
  forced_sells : List (Signal × Trade)
  deriving Repr, DecidableEq

namespace PaperTrader

/-- `self.price_history.get(token_id, [])`. -/
def histFor (h : List (String × List ℚ)) (token_id : String) : List ℚ :=
  match h with
  | [] => []
  | (k, bars) :: rest => if k = token_id then bars else histFor rest token_id

/-- `self.price_history[token_id] = bars`. -/
def setHist (h : List (String × List ℚ)) (token_id : String) (bars : List ℚ) :
    List (String × List ℚ) :=
  match h with
  | [] => [(token_id, bars)]
  | (k, b) :: rest =>
      if k = token_id then (token_id, bars) :: rest else (k, b) :: setHist rest token_id bars

/-- `_get_latest_prices`: last stored bar of every token with history. -/
def get_latest_prices (h : List (String × List ℚ)) : PriceDict :=
  h.filterMap (fun kv => kv.2.getLast?.map (fun pr => (kv.1, pr)))

/-- The body of `_run_tick` for one (market, token, side) triple.
`latest_bar` is what `_fetch_latest_price` returned this tick.  On `none`
the last known price is reused and the strategy is not consulted.  On a new
bar: append it, then (with ≥ 2 bars) call the strategy on the history
excluding the appended bar, retag the signal's outcome, apply the
opposite-side mutual-exclusion block for BUYs, and only then consult the
risk gate and the ledger. -/
def run_tick_token (fee_rate : ℚ) (rm : RiskManager) (strategy : Strategy)
    (now : ℕ) (market : Market) (token_id outcome_label : String)
    (latest_bar : Option ℚ) (st : TraderState) : TraderState :=
  if token_id = "" then st
  else
    match latest_bar with
    | none =>
        match (histFor st.price_history token_id).getLast? with
        | none => st
        | some last_price =>
            { st with current_prices := dictSet st.current_prices token_id last_price }
    | some bar_price =>
        let history := histFor st.price_history token_id ++ [bar_price]
        let st := { st with
          price_history := setHist st.price_history token_id history
          current_prices := dictSet st.current_prices token_id bar_price }
        if history.length < 2 then st
        else
          let passed := history.dropLast
          let sig0 := strategy token_id passed bar_price now
          let sig := { sig0 with outcome := outcome_label }
          let st := { st with invocations := st.invocations ++
            [{ token_id := token_id, price_history := passed
               current_price := bar_price, bar_index := now }] }
          if sig.action = "HOLD" then st
          else
            let opposite :=
              if token_id = market.yes_token_id then market.no_token_id
              else market.yes_token_id
            if sig.action = "BUY" ∧ opposite ≠ "" ∧
                (st.portfolio.get_position opposite).isSome then st
            else
              let checked := rm.check_signal sig st.portfolio st.current_prices
              let st := { st with risk_checks := st.risk_checks + 1 }
              if checked.1 = false then st
              else if sig.action = "BUY" then
                { st with portfolio :=
                    (st.portfolio.execute_buy fee_rate sig market.slug checked.2.1 now).1 }
              else if sig.action = "SELL" then
                { st with portfolio :=
                    (st.portfolio.execute_sell fee_rate sig market.slug now).1 }
              else st

/-- `_handle_expired_markets`: the sell-and-blacklist step for one token of
one expired market. -/
def expire_sell_token (fee_rate : ℚ) (final : PriceDict) (slug : String)
    (now : ℕ) (st : TraderState) (token_id : String) : TraderState :=
  if token_id = "" then st
  else
    match st.portfolio.get_position token_id with
    | none => st
    | some pos =>
        let price := dictGet final token_id pos.avg_cost
        let sell_signal : Signal :=
          { action := "SELL", token_id := token_id, outcome := pos.outcome
            price := price, reason := "Market expired — forced close"
            confidence := 1 }
        let sold := st.portfolio.execute_sell fee_rate sell_signal slug now
        { st with portfolio := sold.1
                  forced_sells := st.forced_sells ++
                    (match sold.2 with
                     | some tr => [(sell_signal, tr)]
                     | none => []) }

/-- Trim a token's in-memory history to its last 100 bars. -/
def trim_hist_token (st : TraderState) (token_id : String) : TraderState :=
  if token_id = "" then st
  else
    let hist := histFor st.price_history token_id
    if 100 < hist.length then
      { st with price_history :=
          setHist st.price_history token_id (hist.drop (hist.length - 100)) }
    else st

/-- Processing of one expired market inside `_handle_expired_markets`:
blacklist both token ids, drop the market from the watch list, force-sell
any open position on either side at the last known price, trim history. -/
def process_expired_market (fee_rate : ℚ) (final : PriceDict) (now : ℕ)
    (st : TraderState) (m : Market) : TraderState :=
  let st := { st with
    expired_token_ids := st.expired_token_ids ++ [m.yes_token_id] ++
      (if m.no_token_id = "" then [] else [m.no_token_id])
    markets := st.markets.filter (fun x => x.yes_token_id ≠ m.yes_token_id) }
  let st := expire_sell_token fee_rate final m.slug now st m.yes_token_id
  let st := expire_sell_token fee_rate final m.slug now st m.no_token_id
  let st := trim_hist_token st m.yes_token_id
  trim_hist_token st m.no_token_id

/-- Whether `_handle_expired_markets` classifies a watched market as
expired: absent from the freshly fetched active list, or past its end
date. -/
def is_expired (current_active : List Market) (past_end : Market → Bool)
    (m : Market) : Bool :=
  !((current_active.map (·.yes_token_id)).contains m.yes_token_id) || past_end m

def handle_expired_markets (fee_rate : ℚ) (now : ℕ) (st : TraderState)
    (current_active : List Market) (past_end : Market → Bool) : TraderState :=
  let expired := st.markets.filter (is_expired current_active past_end)
  match expired with
  | [] => st
  | _ =>
      let final := get_latest_prices st.price_history
      expired.foldl (process_expired_market fee_rate final now) st

/-- `_refresh_markets(initial=False)`'s `is_usable` filter: the market's
YES token is not blacklisted and its end date is not past. -/
def is_usable (expired_ids : List String) (past_end : Market → Bool)
    (m : Market) : Bool :=
  !(expired_ids.contains m.yes_token_id) && !(past_end m)

/-- Adding one newly discovered market, bounded by `MAX_WATCHED_MARKETS`;
`_load_history_for_markets` then registers its token ids as known (its
fetched warm-up bars are external data, irrelevant to the claims). -/
def add_new_market (cap : ℕ) (st : TraderState) (m : Market) : TraderState :=
  if cap ≤ st.markets.length then st
  else
    { st with markets := st.markets ++ [m]
              known_token_ids := st.known_token_ids ++
                (if st.known_token_ids.contains m.yes_token_id then []
                 else [m.yes_token_id]) ++
                (if m.no_token_id = "" ∨
                    st.known_token_ids.contains m.no_token_id then []
                 else [m.no_token_id]) }

/-- `_refresh_markets(initial=False)`: filter the fetched list to usable
markets, handle expiries, then append the genuinely new markets up to the
watch-list cap. -/
def refresh_markets (fee_rate : ℚ) (cap : ℕ) (now : ℕ) (st : TraderState)
    (fresh : List Market) (past_end : Market → Bool) : TraderState :=
  let usable := fresh.filter (is_usable st.expired_token_ids past_end)
  let st := handle_expired_markets fee_rate now st usable past_end
  let current_ids := st.markets.map (·.yes_token_id)
  let new_markets := usable.filter
    (fun m => !(current_ids.contains m.yes_token_id) &&
              !(st.known_token_ids.contains m.yes_token_id))
  new_markets.foldl (add_new_market cap) st

/-- One observable step of a live session, as far as the portfolio and the
watch list are concerned: a tick's per-token processing, a market refresh,
or the session-end forced liquidation of one token
(`_close_all_positions`). -/
inductive LiveEvent where
  | tick (market : Market) (token_id outcome_label : String)
      (latest_bar : Option ℚ) (now : ℕ)
  | refresh (fresh : List Market) (past_end : Market → Bool) (now : ℕ)
  | close_token (token_id : String) (now : ℕ)

def apply_event (fee_rate : ℚ) (rm : RiskManager) (strategy : Strategy)
    (cap : ℕ) (st : TraderState) : LiveEvent → TraderState
  | .tick market token_id outcome_label latest_bar now =>
      run_tick_token fee_rate rm strategy now market token_id outcome_label
        latest_bar st
  | .refresh fresh past_end now =>
      refresh_markets fee_rate cap now st fresh past_end
  | .close_token token_id now =>
      let final := get_latest_prices st.price_history
      { st with portfolio :=
          BacktestEngine.close_position fee_rate final now st.portfolio token_id }

def apply_events (fee_rate : ℚ) (rm : RiskManager) (strategy : Strategy)
    (cap : ℕ) (events : List LiveEvent) (st : TraderState) : TraderState :=
  events.foldl (apply_event fee_rate rm strategy cap) st

end PaperTrader

/-! ## The statement of the implicit gate-vs-ledger claim (C10)

"For some reachable state and BUY signal (confidence 1, cash strictly the
smallest of the three sizing bounds, fee_rate > 0), `check_signal` approves
the trade with `trade_size = cash`, yet `execute_buy` called with that
trade_size returns None because trade_size + trade_size × fee_rate > cash."
Stated over arbitrary portfolio states (a superset of the reachable ones)
with the RiskManager as configured from config.py and the configured
positive fee rate. -/
def gate_approves_but_ledger_rejects : Prop :=
  ∃ (sig : Signal) (p : Portfolio) (current_prices : PriceDict)
    (slug : String) (ts : ℕ) (t : ℚ) (reason : String),
    sig.action = "BUY" ∧ sig.confidence = 1 ∧
    -- cash is strictly the smallest of the three sizing bounds
    p.cash < max 0 (p.total_value current_prices *
      the_risk_manager.max_position_fraction -
      existing_position_value p sig.token_id current_prices) ∧
    p.cash < p.total_value current_prices *
      the_risk_manager.max_exposure_fraction -
      p.get_total_exposure current_prices ∧
    the_risk_manager.check_signal sig p current_prices = (true, t, reason) ∧
    t = p.cash ∧
    (p.execute_buy TRADE_FEE_RATE sig slug t ts).2 = none ∧
    p.cash < t + t * TRADE_FEE_RATE

/-! # Theorems

Helper lemmas about the association-list position store, then one theorem
per claim (C1–C10), each with its witness or counterexample. -/

theorem find_position_update_self (l : List Position) (t : String)
    (f : Position → Position) (hf : ∀ q, (f q).token_id = q.token_id) :
    find_position (update_position l t f) t = (find_position l t).map f := by
  induction l with
  | nil => rfl
  | cons q rest ih =>
      by_cases h : q.token_id = t
      · simp [update_position, find_position, h, hf q]
      · simpa [update_position, find_position, h] using ih

theorem find_position_update_ne (l : List Position) (t t' : String)
    (f : Position → Position) (hf : ∀ q, (f q).token_id = q.token_id)
    (h : t' ≠ t) :
    find_position (update_position l t f) t' = find_position l t' := by
  induction l with
  | nil => rfl
  | cons q rest ih =>
      simp only [update_position, List.map_cons]
      by_cases hq : q.token_id = t
      · have hfq : (f q).token_id ≠ t' := by rw [hf q, hq]; exact Ne.symm h
        have hqt' : q.token_id ≠ t' := by rw [hq]; exact Ne.symm h
        simp only [if_pos hq, find_position, if_neg hfq, if_neg hqt']
        exact ih
      · by_cases hq' : q.token_id = t'
        · simp only [if_neg hq, find_position, if_pos hq']
        · simp only [if_neg hq, find_position, if_neg hq']
          exact ih

theorem find_position_append_ne (l : List Position) (q : Position) (t : String)
    (h : q.token_id ≠ t) :
    find_position (l ++ [q]) t = find_position l t := by
  induction l with
  | nil => simp [find_position, h]
  | cons r rest ih =>
      by_cases hr : r.token_id = t <;> simp [find_position, hr, ih]

theorem find_position_append_none (l : List Position) (q : Position) (t : String)
    (h : find_position l t = none) :
    find_position (l ++ [q]) t = if q.token_id = t then some q else none := by
  induction l with
  | nil => rfl
  | cons r rest ih =>
      by_cases hr : r.token_id = t
      · simp [find_position, hr] at h
      · simp [find_position, hr] at h ⊢
        exact ih h

theorem find_position_remove_self (l : List Position) (t : String) :
    find_position (remove_position l t) t = none := by
  induction l with
  | nil => rfl
  | cons q rest ih =>
      by_cases h : q.token_id = t <;> simp [remove_position, find_position, h, ih]

theorem find_position_remove_ne (l : List Position) (t t' : String) (h : t' ≠ t) :
    find_position (remove_position l t) t' = find_position l t' := by
  induction l with
  | nil => rfl
  | cons q rest ih =>
      by_cases hq : q.token_id = t
      · have hne : q.token_id ≠ t' := fun hc => h (hc.symm.trans hq)
        simp only [remove_position, if_pos hq, find_position, if_neg hne]
        exact ih
      · by_cases hq' : q.token_id = t'
        · simp only [remove_position, if_neg hq, find_position, if_pos hq']
        · simp only [remove_position, if_neg hq, find_position, if_neg hq']
          exact ih

/-- A BUY leaves every other token's position untouched. -/
theorem get_position_execute_buy_ne (fee_rate : ℚ) (p : Portfolio)
    (sig : Signal) (slug : String) (amt : ℚ) (ts : ℕ) (t : String)
    (h : t ≠ sig.token_id) :
    (p.execute_buy fee_rate sig slug amt ts).1.get_position t =
      p.get_position t := by
  simp only [Portfolio.execute_buy, Portfolio.get_position]
  split_ifs with h1 h2
  · rfl
  · rfl
  · cases hf : find_position p.positions sig.token_id with
    | none =>
        simp only [hf]
        exact find_position_append_ne _ _ _ (fun hc => h hc.symm)
    | some pos =>
        simp only [hf]
        exact find_position_update_ne _ _ _ _ (fun q => rfl) h

/-- A SELL leaves every other token's position untouched. -/
theorem get_position_execute_sell_ne (fee_rate : ℚ) (p : Portfolio)
    (sig : Signal) (slug : String) (ts : ℕ) (t : String)
    (h : t ≠ sig.token_id) :
    (p.execute_sell fee_rate sig slug ts).1.get_position t =
      p.get_position t := by
  simp only [Portfolio.execute_sell, Portfolio.get_position]
  cases hf : find_position p.positions sig.token_id with
  | none => rfl
  | some pos =>
      simp only []
      exact find_position_remove_ne _ _ _ h

/-- A SELL only removes positions: any token held afterwards was held
before. -/
theorem get_position_execute_sell_isSome (fee_rate : ℚ) (p : Portfolio)
    (sig : Signal) (slug : String) (ts : ℕ) (t : String)
    (h : ((p.execute_sell fee_rate sig slug ts).1.get_position t).isSome) :
    (p.get_position t).isSome := by
  by_cases ht : t = sig.token_id
  · subst ht
    simp only [Portfolio.execute_sell, Portfolio.get_position] at h ⊢
    cases hf : find_position p.positions sig.token_id with
    | none => simp [hf] at h
    | some pos => simp [hf]
  · rwa [get_position_execute_sell_ne _ _ _ _ _ _ ht] at h

/-- C3: `execute_buy` returns no trade exactly when the reference price is
non-positive or `spend_amount` plus its fee exceeds cash, and a rejected
BUY leaves the portfolio (cash, positions, trade log) unchanged; otherwise
it returns a Trade. -/
theorem execute_buy_reject_iff (fee_rate : ℚ) (p : Portfolio) (sig : Signal)
    (slug : String) (amt : ℚ) (ts : ℕ) :
    ((p.execute_buy fee_rate sig slug amt ts).2 = none ↔
      sig.price ≤ 0 ∨ p.cash < amt + amt * fee_rate) ∧
    ((p.execute_buy fee_rate sig slug amt ts).2 = none →
      (p.execute_buy fee_rate sig slug amt ts).1 = p) ∧
    (¬(sig.price ≤ 0 ∨ p.cash < amt + amt * fee_rate) →
      ∃ tr, (p.execute_buy fee_rate sig slug amt ts).2 = some tr) := by
  simp only [Portfolio.execute_buy]
  split_ifs with h1 h2
  · simp [h1]
  · simp [h1, h2]
  · simp [h1, h2]

/-- C4: a BUY that passes the price and cash checks debits cash by
`spend + spend × fee_rate`, buys `spend / price` shares, merges into an
existing position by the volume-weighted average (or opens a new position
at `avg_cost = price`), and appends exactly one Trade with `pnl = 0`. -/
theorem execute_buy_success (fee_rate : ℚ) (p : Portfolio) (sig : Signal)
    (slug : String) (amt : ℚ) (ts : ℕ)
    (hp : 0 < sig.price) (hcash : amt + amt * fee_rate ≤ p.cash) :
    (p.execute_buy fee_rate sig slug amt ts).1.cash
        = p.cash - (amt + amt * fee_rate) ∧
    (∀ pos, p.get_position sig.token_id = some pos →
      (p.execute_buy fee_rate sig slug amt ts).1.get_position sig.token_id =
        some { pos with
          avg_cost := (pos.shares * pos.avg_cost + amt)
            / (pos.shares + amt / sig.price)
          shares := pos.shares + amt / sig.price }) ∧
    (p.get_position sig.token_id = none →
      (p.execute_buy fee_rate sig slug amt ts).1.get_position sig.token_id =
        some { token_id := sig.token_id, outcome := sig.outcome
               market_slug := slug, shares := amt / sig.price
               avg_cost := sig.price, opened_at := ts }) ∧
    (∃ tr, (p.execute_buy fee_rate sig slug amt ts).2 = some tr ∧
      tr.shares = amt / sig.price ∧ tr.pnl = 0 ∧
      (p.execute_buy fee_rate sig slug amt ts).1.trade_log
        = p.trade_log ++ [tr]) := by
  have h1 : ¬ sig.price ≤ 0 := not_le.mpr hp
  have h2 : ¬ p.cash < amt + amt * fee_rate := not_lt.mpr hcash
  refine ⟨?_, ?_, ?_, ?_⟩
  · simp [Portfolio.execute_buy, h1, h2]
  · intro pos hpos
    simp only [Portfolio.get_position] at hpos
    simp only [Portfolio.execute_buy, if_neg h1, if_neg h2,
      Portfolio.get_position, hpos]
    rw [find_position_update_self]
    · rw [hpos]
      rfl
    · exact fun q => rfl
  · intro hnone
    simp only [Portfolio.get_position] at hnone
    simp only [Portfolio.execute_buy, if_neg h1, if_neg h2,
      Portfolio.get_position, hnone]
    rw [find_position_append_none _ _ _ hnone]
    simp
  · simp [Portfolio.execute_buy, h1, h2]

/-- C4 witness at a concrete input. -/
theorem execute_buy_success_witness :
    ((Portfolio.mk_fresh 1000).execute_buy TRADE_FEE_RATE
        ⟨"BUY", "tokA", "YES", 1/2, "r", 1⟩ "m" 100 0).1.cash
      = 1000 - (100 + 100 * TRADE_FEE_RATE) :=
  (execute_buy_success TRADE_FEE_RATE (Portfolio.mk_fresh 1000)
    ⟨"BUY", "tokA", "YES", 1/2, "r", 1⟩ "m" 100 0
    (by norm_num) (by norm_num [TRADE_FEE_RATE, Portfolio.mk_fresh])).1

/-- C5: a SELL liquidates the entire held quantity, credits cash by
`net = shares × price − fee`, records `pnl = net − shares × avg_cost`,
deletes the Position, and appends one Trade; with no open position it
returns None and leaves the state unchanged — so a second SELL of the same
signal always fails. -/
theorem execute_sell_spec (fee_rate : ℚ) (p : Portfolio) (sig : Signal)
    (slug : String) (ts ts' : ℕ) (pos : Position)
    (hpos : p.get_position sig.token_id = some pos) :
    (p.execute_sell fee_rate sig slug ts).1.cash =
        p.cash + (pos.shares * sig.price - pos.shares * sig.price * fee_rate) ∧
    (p.execute_sell fee_rate sig slug ts).1.get_position sig.token_id = none ∧
    (∃ tr, (p.execute_sell fee_rate sig slug ts).2 = some tr ∧
      tr.shares = pos.shares ∧
      tr.pnl = (pos.shares * sig.price - pos.shares * sig.price * fee_rate)
        - pos.shares * pos.avg_cost ∧
      (p.execute_sell fee_rate sig slug ts).1.trade_log
        = p.trade_log ++ [tr]) ∧
    ((p.execute_sell fee_rate sig slug ts).1.execute_sell fee_rate sig slug ts'
        = ((p.execute_sell fee_rate sig slug ts).1, none)) ∧
    (∀ (q : Portfolio) (sig' : Signal) (slug' : String) (ts₀ : ℕ),
      q.get_position sig'.token_id = none →
      q.execute_sell fee_rate sig' slug' ts₀ = (q, none)) := by
  simp only [Portfolio.get_position] at hpos
  have hnone_rej : ∀ (q : Portfolio) (sig' : Signal) (slug' : String) (ts₀ : ℕ),
      q.get_position sig'.token_id = none →
      q.execute_sell fee_rate sig' slug' ts₀ = (q, none) := by
    intro q sig' slug' ts₀ hq
    simp only [Portfolio.get_position] at hq
    simp only [Portfolio.execute_sell, hq]
  have hafter : (p.execute_sell fee_rate sig slug ts).1.get_position
      sig.token_id = none := by
    simp only [Portfolio.execute_sell, hpos, Portfolio.get_position]
    exact find_position_remove_self _ _
  refine ⟨?_, hafter, ?_, ?_, hnone_rej⟩
  · simp [Portfolio.execute_sell, hpos]
  · simp [Portfolio.execute_sell, hpos]
  · exact hnone_rej _ sig slug ts' hafter

/-- C5 witness at a concrete input. -/
theorem execute_sell_spec_witness :
    (Portfolio.execute_sell TRADE_FEE_RATE
        ⟨100, 1000, [⟨"tokA", "YES", "m", 200, 1/2, 0⟩], []⟩
        ⟨"SELL", "tokA", "YES", 1/2, "r", 1⟩ "m" 1).1.get_position "tokA"
      = none :=
  (execute_sell_spec TRADE_FEE_RATE
    ⟨100, 1000, [⟨"tokA", "YES", "m", 200, 1/2, 0⟩], []⟩
    ⟨"SELL", "tokA", "YES", 1/2, "r", 1⟩ "m" 1 2
    ⟨"tokA", "YES", "m", 200, 1/2, 0⟩ rfl).2.1

/-- C7 (counterexample): in a concrete fresh round-trip — buy $100 of a
token at price 0.5, sell it immediately at the same price, fee rate
0.002 — the recorded SELL pnl is −$0.20, the buy fee and the sell fee are
each $0.20, and −0.20 ≠ −(0.20 + 0.20): the SELL trade's pnl does not
equal minus the total fees of the two trades. -/
theorem round_trip_pnl_counterexample :
    ((((Portfolio.mk_fresh 1000).execute_buy TRADE_FEE_RATE
        ⟨"BUY", "tokA", "YES", 1/2, "r", 1⟩ "m" 100 0).1.execute_sell
        TRADE_FEE_RATE ⟨"SELL", "tokA", "YES", 1/2, "r", 1⟩ "m" 1).2.map
        Trade.pnl = some (-(1/5))) ∧
    (((Portfolio.mk_fresh 1000).execute_buy TRADE_FEE_RATE
        ⟨"BUY", "tokA", "YES", 1/2, "r", 1⟩ "m" 100 0).2.map Trade.fee
        = some (1/5)) ∧
    ((((Portfolio.mk_fresh 1000).execute_buy TRADE_FEE_RATE
        ⟨"BUY", "tokA", "YES", 1/2, "r", 1⟩ "m" 100 0).1.execute_sell
        TRADE_FEE_RATE ⟨"SELL", "tokA", "YES", 1/2, "r", 1⟩ "m" 1).2.map
        Trade.fee = some (1/5)) ∧
    (-(1/5) : ℚ) ≠ -(1/5 + 1/5) := by
  refine ⟨?_, ?_, ?_, by norm_num⟩ <;>
    norm_num [Portfolio.execute_buy, Portfolio.execute_sell,
      Portfolio.mk_fresh, TRADE_FEE_RATE, find_position, update_position,
      remove_position]

/-- C7 (amended): a successful fresh BUY of spend `s` at price `p` followed
immediately by a SELL of the same token at the unchanged price leaves no
open Position, and the SELL trade's recorded pnl equals exactly
`−fee_sell = −s × fee_rate` (the buy fee never enters the recorded pnl —
it shows up only in cash, whose round-trip loss is
`fee_buy + fee_sell = 2 × s × fee_rate`). -/
theorem round_trip_amended (fee_rate : ℚ) (p : Portfolio)
    (sig_b sig_s : Signal) (slug : String) (amt : ℚ) (ts ts' : ℕ)
    (htok : sig_s.token_id = sig_b.token_id)
    (hprice : sig_s.price = sig_b.price)
    (hfresh : p.get_position sig_b.token_id = none)
    (hp : 0 < sig_b.price) (hcash : amt + amt * fee_rate ≤ p.cash) :
    ((p.execute_buy fee_rate sig_b slug amt ts).1.execute_sell fee_rate
        sig_s slug ts').1.get_position sig_b.token_id = none ∧
    ((p.execute_buy fee_rate sig_b slug amt ts).1.execute_sell fee_rate
        sig_s slug ts').2.map Trade.fee = some (amt * fee_rate) ∧
    ((p.execute_buy fee_rate sig_b slug amt ts).1.execute_sell fee_rate
        sig_s slug ts').2.map Trade.pnl = some (-(amt * fee_rate)) ∧
    ((p.execute_buy fee_rate sig_b slug amt ts).1.execute_sell fee_rate
        sig_s slug ts').1.cash = p.cash - amt * fee_rate - amt * fee_rate := by
  have h1 : ¬ sig_b.price ≤ 0 := not_le.mpr hp
  have h2 : ¬ p.cash < amt + amt * fee_rate := not_lt.mpr hcash
  simp only [Portfolio.get_position] at hfresh
  have hπ : amt / sig_b.price * sig_b.price = amt :=
    div_mul_cancel₀ amt (ne_of_gt hp)
  have hpos1 : find_position
      (p.execute_buy fee_rate sig_b slug amt ts).1.positions sig_s.token_id =
      some { token_id := sig_b.token_id, outcome := sig_b.outcome
             market_slug := slug, shares := amt / sig_b.price
             avg_cost := sig_b.price, opened_at := ts } := by
    rw [htok]
    simp only [Portfolio.execute_buy, if_neg h1, if_neg h2, hfresh]
    rw [find_position_append_none _ _ _ hfresh]
    simp
  have hcash1 : (p.execute_buy fee_rate sig_b slug amt ts).1.cash
      = p.cash - (amt + amt * fee_rate) := by
    simp [Portfolio.execute_buy, h1, h2]
  refine ⟨?_, ?_, ?_, ?_⟩
  · simp only [Portfolio.execute_sell, hpos1, Portfolio.get_position]
    rw [← htok]
    exact find_position_remove_self _ _
  · simp only [Portfolio.execute_sell, hpos1, hprice, Option.map_some',
      Option.some.injEq]
    rw [hπ]
  · simp only [Portfolio.execute_sell, hpos1, hprice, Option.map_some',
      Option.some.injEq]
    rw [hπ]
    ring
  · simp only [Portfolio.execute_sell, hpos1, hprice, hcash1]
    rw [hπ]
    ring

/-- C7 witness: the amended round-trip theorem at the concrete inputs of
the counterexample. -/
theorem round_trip_amended_witness :
    (((Portfolio.mk_fresh 1000).execute_buy TRADE_FEE_RATE
        ⟨"BUY", "tokA", "YES", 1/2, "r", 1⟩ "m" 100 0).1.execute_sell
        TRADE_FEE_RATE ⟨"SELL", "tokA", "YES", 1/2, "r", 1⟩ "m" 1).2.map
        Trade.pnl = some (-(100 * TRADE_FEE_RATE)) :=
  (round_trip_amended TRADE_FEE_RATE (Portfolio.mk_fresh 1000)
    ⟨"BUY", "tokA", "YES", 1/2, "r", 1⟩ ⟨"SELL", "tokA", "YES", 1/2, "r", 1⟩
    "m" 100 0 1 rfl rfl rfl (by norm_num)
    (by norm_num [TRADE_FEE_RATE, Portfolio.mk_fresh])).2.2.1

/-- C2: when `check_signal` approves a BUY (confidence in [0,1]) with size
`t`, the token's existing market value plus `t` stays within the position
cap, total exposure plus `t` stays within the exposure cap, and `t` is
bounded by each of the three sizing bounds (position room, exposure room,
cash) — every constraint only shrinks the trade size. -/
theorem risk_cap_enforcement (rm : RiskManager) (sig : Signal) (p : Portfolio)
    (current_prices : PriceDict) (t : ℚ) (reason : String)
    (hact : sig.action = "BUY")
    (_hc0 : 0 ≤ sig.confidence) (hc1 : sig.confidence ≤ 1)
    (happr : rm.check_signal sig p current_prices = (true, t, reason)) :
    existing_position_value p sig.token_id current_prices + t
        ≤ p.total_value current_prices * rm.max_position_fraction ∧
    p.get_total_exposure current_prices + t
        ≤ p.total_value current_prices * rm.max_exposure_fraction ∧
    t ≤ max 0 (p.total_value current_prices * rm.max_position_fraction
        - existing_position_value p sig.token_id current_prices) ∧
    t ≤ p.total_value current_prices * rm.max_exposure_fraction
        - p.get_total_exposure current_prices ∧
    t ≤ p.cash := by
  have hh : (("BUY" : String) = "HOLD") = False := eq_false (by decide)
  have hs : (("BUY" : String) = "SELL") = False := eq_false (by decide)
  have hb : (("BUY" : String) = "BUY") = True := eq_true rfl
  simp only [RiskManager.check_signal, hact, hh, hs, hb, if_false, if_true] at happr
  set TV := p.total_value current_prices with hTV
  set EV := existing_position_value p sig.token_id current_prices with hEV
  set EX := p.get_total_exposure current_prices with hEX
  by_cases h_tv : TV ≤ 0
  · rw [if_pos h_tv] at happr; simp at happr
  rw [if_neg h_tv] at happr
  by_cases h_avail : max 0 (TV * rm.max_position_fraction - EV) ≤ 0
  · rw [if_pos h_avail] at happr; simp at happr
  rw [if_neg h_avail] at happr
  by_cases h_room : TV * rm.max_exposure_fraction - EX ≤ 0
  · rw [if_pos h_room] at happr; simp at happr
  rw [if_neg h_room] at happr
  by_cases h_cash : p.cash ≤ 0
  · rw [if_pos h_cash] at happr; simp at happr
  rw [if_neg h_cash] at happr
  by_cases h_floor : min (max 0 (TV * rm.max_position_fraction - EV))
      (min (TV * rm.max_exposure_fraction - EX) p.cash) *
      (if 0 < sig.confidence then sig.confidence else 1/2) < 1
  · rw [if_pos h_floor] at happr; simp at happr
  rw [if_neg h_floor] at happr
  simp only [Prod.mk.injEq] at happr
  obtain ⟨-, ht, -⟩ := happr
  have hm1 : (if 0 < sig.confidence then sig.confidence else 1/2) ≤ (1 : ℚ) := by
    split_ifs with h
    · exact hc1
    · norm_num
  have h_avail' : 0 < max 0 (TV * rm.max_position_fraction - EV) :=
    lt_of_not_le h_avail
  have h_room' : 0 < TV * rm.max_exposure_fraction - EX := lt_of_not_le h_room
  have h_cash' : 0 < p.cash := lt_of_not_le h_cash
  have hmin_pos : 0 < min (max 0 (TV * rm.max_position_fraction - EV))
      (min (TV * rm.max_exposure_fraction - EX) p.cash) :=
    lt_min h_avail' (lt_min h_room' h_cash')
  have ht_le : t ≤ min (max 0 (TV * rm.max_position_fraction - EV))
      (min (TV * rm.max_exposure_fraction - EX) p.cash) := by
    rw [← ht]
    exact mul_le_of_le_one_right (le_of_lt hmin_pos) hm1
  have h_le_avail : t ≤ max 0 (TV * rm.max_position_fraction - EV) :=
    le_trans ht_le (min_le_left _ _)
  have h_le_room : t ≤ TV * rm.max_exposure_fraction - EX :=
    le_trans ht_le (le_trans (min_le_right _ _) (min_le_left _ _))
  have h_le_cash : t ≤ p.cash :=
    le_trans ht_le (le_trans (min_le_right _ _) (min_le_right _ _))
  have hmax_pos : 0 < TV * rm.max_position_fraction - EV := by
    by_contra hx
    push_neg at hx
    rw [max_eq_left hx] at h_avail'
    exact lt_irrefl 0 h_avail'
  have h_le_avail' : t ≤ TV * rm.max_position_fraction - EV := by
    rwa [max_eq_right (le_of_lt hmax_pos)] at h_le_avail
  exact ⟨by linarith, by linarith, h_le_avail, h_le_room, h_le_cash⟩

/-- C2 witness: a fresh $1000 portfolio and a full-confidence BUY at price
0.5 is approved at $50, within the 5% position cap. -/
theorem risk_cap_enforcement_witness :
    existing_position_value (Portfolio.mk_fresh 1000) "tokA" [] + 50
      ≤ (Portfolio.mk_fresh 1000).total_value []
        * the_risk_manager.max_position_fraction :=
  (risk_cap_enforcement the_risk_manager ⟨"BUY", "tokA", "YES", 1/2, "r", 1⟩
    (Portfolio.mk_fresh 1000) [] 50 "BUY approved" rfl (by norm_num)
    (by norm_num)
    (by
      norm_num [RiskManager.check_signal, the_risk_manager,
        Portfolio.mk_fresh, Portfolio.total_value, Portfolio.get_total_exposure,
        Portfolio.get_position, existing_position_value, find_position,
        MAX_POSITION_SIZE_FRACTION, MAX_TOTAL_EXPOSURE_FRACTION]
      decide)).1

/-- C6: for a BUY signal that passes the portfolio-value, position-cap,
exposure-cap and cash checks, the approved trade size is exactly
`min(room_this_token, room_exposure, cash)` scaled by the confidence (by
0.5 when the confidence is not positive, hence at confidence exactly 0),
and the signal is rejected whenever that scaled size is below the $1
floor — the floor is evaluated after confidence scaling. -/
theorem buy_sizing_formula (rm : RiskManager) (sig : Signal) (p : Portfolio)
    (current_prices : PriceDict)
    (hact : sig.action = "BUY")
    (h_tv : 0 < p.total_value current_prices)
    (h_avail : 0 < p.total_value current_prices * rm.max_position_fraction
        - existing_position_value p sig.token_id current_prices)
    (h_room : 0 < p.total_value current_prices * rm.max_exposure_fraction
        - p.get_total_exposure current_prices)
    (h_cash : 0 < p.cash) :
    (1 ≤ min (p.total_value current_prices * rm.max_position_fraction
          - existing_position_value p sig.token_id current_prices)
        (min (p.total_value current_prices * rm.max_exposure_fraction
          - p.get_total_exposure current_prices) p.cash) *
        (if 0 < sig.confidence then sig.confidence else 1/2) →
      rm.check_signal sig p current_prices =
        (true, min (p.total_value current_prices * rm.max_position_fraction
            - existing_position_value p sig.token_id current_prices)
          (min (p.total_value current_prices * rm.max_exposure_fraction
            - p.get_total_exposure current_prices) p.cash) *
          (if 0 < sig.confidence then sig.confidence else 1/2),
          "BUY approved")) ∧
    (min (p.total_value current_prices * rm.max_position_fraction
          - existing_position_value p sig.token_id current_prices)
        (min (p.total_value current_prices * rm.max_exposure_fraction
          - p.get_total_exposure current_prices) p.cash) *
        (if 0 < sig.confidence then sig.confidence else 1/2) < 1 →
      (rm.check_signal sig p current_prices).1 = false) := by
  have hh : (("BUY" : String) = "HOLD") = False := eq_false (by decide)
  have hs : (("BUY" : String) = "SELL") = False := eq_false (by decide)
  have hb : (("BUY" : String) = "BUY") = True := eq_true rfl
  set TV := p.total_value current_prices with hTV
  set EV := existing_position_value p sig.token_id current_prices with hEV
  set EX := p.get_total_exposure current_prices with hEX
  have hmax : max 0 (TV * rm.max_position_fraction - EV)
      = TV * rm.max_position_fraction - EV := max_eq_right (le_of_lt h_avail)
  have hrw : rm.check_signal sig p current_prices =
      (if min (TV * rm.max_position_fraction - EV)
          (min (TV * rm.max_exposure_fraction - EX) p.cash) *
          (if 0 < sig.confidence then sig.confidence else 1/2) < 1 then
        (false, 0, "BUY blocked: trade size too small (< $1.00)")
      else
        (true, min (TV * rm.max_position_fraction - EV)
          (min (TV * rm.max_exposure_fraction - EX) p.cash) *
          (if 0 < sig.confidence then sig.confidence else 1/2),
          "BUY approved")) := by
    simp only [RiskManager.check_signal, hact, hh, hs, hb, if_false, if_true,
      ← hTV, ← hEV, ← hEX, hmax]
    rw [if_neg (not_le.mpr h_tv), if_neg (not_le.mpr h_avail),
      if_neg (not_le.mpr h_room), if_neg (not_le.mpr h_cash)]
  constructor
  · intro h1
    rw [hrw, if_neg (not_lt.mpr h1)]
  · intro h1
    rw [hrw, if_pos h1]

/-- C6 witness: a fresh $1000 portfolio, full confidence, price 0.5:
approved at exactly min(50, 800, 1000) × 1 = $50. -/
theorem buy_sizing_formula_witness :
    the_risk_manager.check_signal ⟨"BUY", "tokA", "YES", 1/2, "r", 1⟩
      (Portfolio.mk_fresh 1000) [] = (true, 50, "BUY approved") := by
  have h := (buy_sizing_formula the_risk_manager
    ⟨"BUY", "tokA", "YES", 1/2, "r", 1⟩ (Portfolio.mk_fresh 1000) [] rfl
    (by norm_num [Portfolio.total_value, Portfolio.get_total_exposure,
      Portfolio.mk_fresh])
    (by norm_num [Portfolio.total_value, Portfolio.get_total_exposure,
      Portfolio.mk_fresh, existing_position_value, Portfolio.get_position,
      find_position, the_risk_manager, MAX_POSITION_SIZE_FRACTION])
    (by norm_num [Portfolio.total_value, Portfolio.get_total_exposure,
      Portfolio.mk_fresh, the_risk_manager, MAX_TOTAL_EXPOSURE_FRACTION])
    (by norm_num [Portfolio.mk_fresh])).1
    (by norm_num [Portfolio.total_value, Portfolio.get_total_exposure,
      Portfolio.mk_fresh, existing_position_value, Portfolio.get_position,
      find_position, the_risk_manager, MAX_POSITION_SIZE_FRACTION,
      MAX_TOTAL_EXPOSURE_FRACTION])
  rw [h]
  norm_num [Portfolio.total_value, Portfolio.get_total_exposure,
    Portfolio.mk_fresh, existing_position_value, Portfolio.get_position,
    find_position, the_risk_manager, MAX_POSITION_SIZE_FRACTION,
    MAX_TOTAL_EXPOSURE_FRACTION]

/-- C10 (counterexample): the scenario described by the claim cannot occur
at all.  With the configured fractions, whenever the gate's portfolio-value
guard passes (`total_value > 0`), the exposure room `0.8 × total_value −
exposure` is strictly below cash (their difference is `−0.2 × total_value`),
so cash is never the strict minimum of the three sizing bounds and no state
— reachable or not — satisfies the claim's premises. -/
theorem gate_cash_bound_never_binds : ¬ gate_approves_but_ledger_rejects := by
  rintro ⟨sig, p, current_prices, slug, ts, t, reason, hact, hconf,
    hlt_avail, hlt_room, happr, ht, hrej, hfee⟩
  have hh : (("BUY" : String) = "HOLD") = False := eq_false (by decide)
  have hs : (("BUY" : String) = "SELL") = False := eq_false (by decide)
  have hb : (("BUY" : String) = "BUY") = True := eq_true rfl
  simp only [RiskManager.check_signal, hact, hh, hs, hb, if_false, if_true] at happr
  by_cases h_tv : p.total_value current_prices ≤ 0
  · rw [if_pos h_tv] at happr; simp at happr
  have h_tv' : 0 < p.total_value current_prices := lt_of_not_le h_tv
  have hsum : p.total_value current_prices
      = p.cash + p.get_total_exposure current_prices := rfl
  have h45 : the_risk_manager.max_exposure_fraction = 4/5 := rfl
  rw [h45, hsum] at hlt_room
  rw [hsum] at h_tv'
  linarith

/-- C10 (amended): gate approval in fact guarantees that the Ledger's
cash-plus-fee check passes.  For any state with non-negative exposure and a
BUY signal with confidence ≤ 1 that the configured RiskManager approves at
size `t`, the approved size satisfies `t + t × TRADE_FEE_RATE ≤ cash`
(because the exposure room bounds `t` by `0.8 × cash`), so `execute_buy`
at a positive price never rejects a gate-approved size for lack of cash. -/
theorem gate_approval_covers_fee (sig : Signal) (p : Portfolio)
    (current_prices : PriceDict) (slug : String) (ts : ℕ) (t : ℚ)
    (reason : String)
    (hact : sig.action = "BUY") (hc1 : sig.confidence ≤ 1)
    (hexp : 0 ≤ p.get_total_exposure current_prices)
    (happr : the_risk_manager.check_signal sig p current_prices
      = (true, t, reason)) :
    t + t * TRADE_FEE_RATE ≤ p.cash ∧
    (0 < sig.price → (p.execute_buy TRADE_FEE_RATE sig slug t ts).2 ≠ none) := by
  have hh : (("BUY" : String) = "HOLD") = False := eq_false (by decide)
  have hs : (("BUY" : String) = "SELL") = False := eq_false (by decide)
  have hb : (("BUY" : String) = "BUY") = True := eq_true rfl
  simp only [RiskManager.check_signal, hact, hh, hs, hb, if_false, if_true] at happr
  set TV := p.total_value current_prices with hTV
  set EV := existing_position_value p sig.token_id current_prices with hEV
  set EX := p.get_total_exposure current_prices with hEX
  by_cases h_tv : TV ≤ 0
  · rw [if_pos h_tv] at happr; simp at happr
  rw [if_neg h_tv] at happr
  by_cases h_avail : max 0 (TV * the_risk_manager.max_position_fraction - EV) ≤ 0
  · rw [if_pos h_avail] at happr; simp at happr
  rw [if_neg h_avail] at happr
  by_cases h_room : TV * the_risk_manager.max_exposure_fraction - EX ≤ 0
  · rw [if_pos h_room] at happr; simp at happr
  rw [if_neg h_room] at happr
  by_cases h_cash : p.cash ≤ 0
  · rw [if_pos h_cash] at happr; simp at happr
  rw [if_neg h_cash] at happr
  by_cases h_floor : min (max 0 (TV * the_risk_manager.max_position_fraction - EV))
      (min (TV * the_risk_manager.max_exposure_fraction - EX) p.cash) *
      (if 0 < sig.confidence then sig.confidence else 1/2) < 1
  · rw [if_pos h_floor] at happr; simp at happr
  rw [if_neg h_floor] at happr
  simp only [Prod.mk.injEq] at happr
  obtain ⟨-, ht, -⟩ := happr
  have hm1 : (if 0 < sig.confidence then sig.confidence else 1/2) ≤ (1 : ℚ) := by
    split_ifs with h
    · exact hc1
    · norm_num
  have hm0 : (0 : ℚ) < (if 0 < sig.confidence then sig.confidence else 1/2) := by
    split_ifs with h
    · exact h
    · norm_num
  have h_avail' : 0 < max 0 (TV * the_risk_manager.max_position_fraction - EV) :=
    lt_of_not_le h_avail
  have h_room' : 0 < TV * the_risk_manager.max_exposure_fraction - EX :=
    lt_of_not_le h_room
  have h_cash' : 0 < p.cash := lt_of_not_le h_cash
  have hmin_pos : 0 < min (max 0 (TV * the_risk_manager.max_position_fraction - EV))
      (min (TV * the_risk_manager.max_exposure_fraction - EX) p.cash) :=
    lt_min h_avail' (lt_min h_room' h_cash')
  have ht0 : 0 < t := by
    rw [← ht]
    exact mul_pos hmin_pos hm0
  have ht_le : t ≤ min (max 0 (TV * the_risk_manager.max_position_fraction - EV))
      (min (TV * the_risk_manager.max_exposure_fraction - EX) p.cash) := by
    rw [← ht]
    exact mul_le_of_le_one_right (le_of_lt hmin_pos) hm1
  have h_le_room : t ≤ TV * the_risk_manager.max_exposure_fraction - EX :=
    le_trans ht_le (le_trans (min_le_right _ _) (min_le_left _ _))
  have hsum : TV = p.cash + EX := by rw [hTV, hEX]; rfl
  have h45 : the_risk_manager.max_exposure_fraction = 4/5 := rfl
  rw [hsum, h45] at h_le_room
  have hfr : TRADE_FEE_RATE = 1/500 := rfl
  have hmain : t + t * TRADE_FEE_RATE ≤ p.cash := by
    rw [hfr]
    linarith
  refine ⟨hmain, fun hp => ?_⟩
  simp only [Portfolio.execute_buy, if_neg (not_le.mpr hp),
    if_neg (not_lt.mpr hmain)]
  simp

/-- C10 witness for the amended theorem: fresh $1000 portfolio, approval at
$50, and 50 + 50 × 0.002 ≤ 1000. -/
theorem gate_approval_covers_fee_witness :
    (50 : ℚ) + 50 * TRADE_FEE_RATE ≤ (Portfolio.mk_fresh 1000).cash :=
  (gate_approval_covers_fee ⟨"BUY", "tokA", "YES", 1/2, "r", 1⟩
    (Portfolio.mk_fresh 1000) [] "m" 0 50 "BUY approved" rfl (by norm_num)
    (by norm_num [Portfolio.get_total_exposure, Portfolio.mk_fresh])
    (by
      norm_num [RiskManager.check_signal, the_risk_manager,
        Portfolio.mk_fresh, Portfolio.total_value, Portfolio.get_total_exposure,
        Portfolio.get_position, existing_position_value, find_position,
        MAX_POSITION_SIZE_FRACTION, MAX_TOTAL_EXPOSURE_FRACTION]
      decide)).1

/-- A property preserved by every step of a left fold holds of the fold. -/
theorem foldl_invariant {σ α : Type _} (P : σ → Prop) (f : σ → α → σ)
    (l : List α) (s : σ) (h0 : P s)
    (hstep : ∀ s' a, a ∈ l → P s' → P (f s' a)) : P (l.foldl f s) := by
  induction l generalizing s with
  | nil => exact h0
  | cons a rest ih =>
      exact ih (f s a) (hstep s a (List.mem_cons_self a rest) h0)
        (fun s' b hb => hstep s' b (List.mem_cons_of_mem a hb))

/-- What one backtest inner-loop step does to the invocation trace: when
the market's series has a bar at `bar_index`, exactly one call with
history `series.take bar_index` is recorded; otherwise none. -/
theorem run_bar_market_invocations (fee_rate : ℚ) (rm : RiskManager)
    (strategy : Strategy) (pd : PriceData) (k : ℕ) (st : EngineState)
    (m : Market) :
    (BacktestEngine.run_bar_market fee_rate rm strategy pd k st m).invocations
      = if k < (seriesFor pd m.yes_token_id).length
        then st.invocations ++
          [{ token_id := m.yes_token_id
             price_history := (seriesFor pd m.yes_token_id).take k
             current_price := (seriesFor pd m.yes_token_id).getD k 0
             bar_index := k }]
        else st.invocations := by
  simp only [BacktestEngine.run_bar_market]
  split_ifs <;> rfl

/-- Every strategy invocation of a backtest run is made at some bar index
`k ≥ 1` within the token's series and sees exactly `series.take k`. -/
theorem backtest_invocations_take (fee_rate : ℚ) (rm : RiskManager)
    (strategy : Strategy) (markets : List Market) (pd : PriceData)
    (p0 : Portfolio) :
    ∀ inv ∈ (BacktestEngine.run fee_rate rm strategy markets pd p0).invocations,
      inv.price_history = (seriesFor pd inv.token_id).take inv.bar_index ∧
      1 ≤ inv.bar_index ∧
      inv.bar_index < (seriesFor pd inv.token_id).length := by
  have hmain : ∀ inv ∈ ((List.range' 1 (max_bars pd - 1)).foldl
      (BacktestEngine.run_bar fee_rate rm strategy markets pd)
      { portfolio := p0, current_prices := [], invocations := []
        equity_curve := [] }).invocations,
      inv.price_history = (seriesFor pd inv.token_id).take inv.bar_index ∧
      1 ≤ inv.bar_index ∧
      inv.bar_index < (seriesFor pd inv.token_id).length := by
    refine foldl_invariant
      (fun (st : EngineState) => ∀ inv ∈ st.invocations,
        inv.price_history = (seriesFor pd inv.token_id).take inv.bar_index ∧
        1 ≤ inv.bar_index ∧
        inv.bar_index < (seriesFor pd inv.token_id).length)
      _ _ _ (by intro inv h; simp at h) ?_
    intro st k hk hP
    have hk1 : 1 ≤ k := (List.mem_range'_1.mp hk).1
    simp only [BacktestEngine.run_bar]
    refine foldl_invariant
      (fun (st : EngineState) => ∀ inv ∈ st.invocations,
        inv.price_history = (seriesFor pd inv.token_id).take inv.bar_index ∧
        1 ≤ inv.bar_index ∧
        inv.bar_index < (seriesFor pd inv.token_id).length)
      _ _ _ (by intro inv h; exact hP inv h) ?_
    intro st' m hm hP' inv hinv
    rw [run_bar_market_invocations] at hinv
    by_cases hlt : k < (seriesFor pd m.yes_token_id).length
    · rw [if_pos hlt] at hinv
      rcases List.mem_append.mp hinv with h | h
      · exact hP' inv h
      · rcases List.mem_singleton.mp h with rfl
        exact ⟨rfl, hk1, hlt⟩
    · rw [if_neg hlt] at hinv
      exact hP' inv hinv
  intro inv hinv
  exact hmain inv hinv

/-- What one live-tick token step with a fresh bar does to the invocation
trace: any invocation it adds is for the processed token and sees exactly
the history stored before the new bar was appended. -/
theorem live_tick_invocations (fee_rate : ℚ) (rm : RiskManager)
    (strategy : Strategy) (now : ℕ) (market : Market)
    (token_id outcome_label : String) (bar : ℚ) (st : TraderState) :
    ∀ inv ∈ (PaperTrader.run_tick_token fee_rate rm strategy now market
        token_id outcome_label (some bar) st).invocations,
      inv ∈ st.invocations ∨
      (inv.token_id = token_id ∧
       inv.price_history = PaperTrader.histFor st.price_history token_id ∧
       inv.current_price = bar) := by
  intro inv hinv
  simp only [PaperTrader.run_tick_token] at hinv
  by_cases he : token_id = ""
  · rw [if_pos he] at hinv
    exact Or.inl hinv
  rw [if_neg he] at hinv
  by_cases hlen : (PaperTrader.histFor st.price_history token_id
      ++ [bar]).length < 2
  · rw [if_pos hlen] at hinv
    exact Or.inl hinv
  rw [if_neg hlen] at hinv
  have hdrop : (PaperTrader.histFor st.price_history token_id
      ++ [bar]).dropLast = PaperTrader.histFor st.price_history token_id :=
    List.dropLast_concat
  split_ifs at hinv <;>
    first
    | exact Or.inl hinv
    | (rcases List.mem_append.mp hinv with h | h
       · exact Or.inl h
       · rcases List.mem_singleton.mp h with rfl
         exact Or.inr ⟨rfl, hdrop, rfl⟩)

/-- C1 (no-lookahead): in a backtest run, every history handed to
`Strategy.generate_signal` at `bar_index = k` is exactly `series.take k` —
it has length `k`, agrees with the series below index `k`, and holds
nothing at index `k` or later; and in the live tick, the history passed on
a fresh bar is exactly the history stored before that bar was appended. -/
theorem no_lookahead (fee_rate : ℚ) (rm : RiskManager) (strategy : Strategy)
    (markets : List Market) (pd : PriceData) (p0 : Portfolio) :
    (∀ inv ∈ (BacktestEngine.run fee_rate rm strategy markets pd p0).invocations,
      inv.price_history = (seriesFor pd inv.token_id).take inv.bar_index ∧
      inv.price_history.length = inv.bar_index ∧
      1 ≤ inv.bar_index ∧
      inv.bar_index < (seriesFor pd inv.token_id).length ∧
      (∀ j, j < inv.bar_index →
        inv.price_history.get? j = (seriesFor pd inv.token_id).get? j) ∧
      (∀ j, inv.bar_index ≤ j → inv.price_history.get? j = none)) ∧
    (∀ (now : ℕ) (market : Market) (token_id outcome_label : String)
        (bar : ℚ) (st : TraderState),
      ∀ inv ∈ (PaperTrader.run_tick_token fee_rate rm strategy now market
          token_id outcome_label (some bar) st).invocations,
        inv ∈ st.invocations ∨
        (inv.token_id = token_id ∧
         inv.price_history = PaperTrader.histFor st.price_history token_id ∧
         inv.current_price = bar)) := by
  constructor
  · intro inv hinv
    obtain ⟨htake, hk1, hklt⟩ :=
      backtest_invocations_take fee_rate rm strategy markets pd p0 inv hinv
    have hlen : inv.price_history.length = inv.bar_index := by
      rw [htake, List.length_take]
      exact min_eq_left (le_of_lt hklt)
    refine ⟨htake, hlen, hk1, hklt, ?_, ?_⟩
    · intro j hj
      rw [htake]
      exact List.get?_take hj
    · intro j hj
      rw [List.get?_eq_none]
      rw [hlen]
      exact hj
  · intro now market token_id outcome_label bar st
    exact live_tick_invocations fee_rate rm strategy now market token_id
      outcome_label bar st

/-- Everything a live-tick token step can do to the portfolio: leave it
unchanged, execute a BUY of the (outcome-retagged) strategy signal with the
opposite-side block known to have failed, or execute a SELL of that
signal. -/
theorem run_tick_token_portfolio_cases (fee_rate : ℚ) (rm : RiskManager)
    (strategy : Strategy) (now : ℕ) (market : Market)
    (token_id outcome_label : String) (lb : Option ℚ) (st : TraderState) :
    (PaperTrader.run_tick_token fee_rate rm strategy now market token_id
        outcome_label lb st).portfolio = st.portfolio ∨
    (∃ hist price amt,
      ¬((((if token_id = market.yes_token_id then market.no_token_id
            else market.yes_token_id)) ≠ "") ∧
        ((st.portfolio.get_position (if token_id = market.yes_token_id
            then market.no_token_id else market.yes_token_id)).isSome)) ∧
      ({ strategy token_id hist price now with
          outcome := outcome_label } : Signal).action = "BUY" ∧
      (PaperTrader.run_tick_token fee_rate rm strategy now market token_id
          outcome_label lb st).portfolio
        = (st.portfolio.execute_buy fee_rate
            { strategy token_id hist price now with outcome := outcome_label }
            market.slug amt now).1) ∨
    (∃ hist price,
      (PaperTrader.run_tick_token fee_rate rm strategy now market token_id
          outcome_label lb st).portfolio
        = (st.portfolio.execute_sell fee_rate
            { strategy token_id hist price now with outcome := outcome_label }
            market.slug now).1) := by
  simp only [PaperTrader.run_tick_token]
  by_cases he : token_id = ""
  · rw [if_pos he]
    exact Or.inl rfl
  rw [if_neg he]
  split
  · split
    · exact Or.inl rfl
    · exact Or.inl rfl
  · generalize (if token_id = market.yes_token_id then market.no_token_id
      else market.yes_token_id) = opp
    split_ifs with h1 h2 h3 h4 h5 h6
    · exact Or.inl rfl
    · exact Or.inl rfl
    · exact Or.inl rfl
    · exact Or.inl rfl
    · refine Or.inr (Or.inl ⟨_, _, _, ?_, h5, rfl⟩)
      intro hc
      exact h3 ⟨h5, hc.1, hc.2⟩
    · exact Or.inr (Or.inr ⟨_, _, rfl⟩)
    · exact Or.inl rfl

/-- `close_position` (and every forced liquidation built on `execute_sell`)
only removes positions. -/
theorem close_position_isSome (fee_rate : ℚ) (final : PriceDict)
    (close_time : ℕ) (p : Portfolio) (token_id t : String)
    (h : (((BacktestEngine.close_position fee_rate final close_time p
        token_id).get_position t).isSome)) : (p.get_position t).isSome := by
  revert h
  cases hf : find_position p.positions token_id with
  | none => simp only [BacktestEngine.close_position, hf]; exact id
  | some pos =>
      simp only [BacktestEngine.close_position, hf]
      exact get_position_execute_sell_isSome _ _ _ _ _ _

/-- `expire_sell_token` only removes positions. -/
theorem expire_sell_token_isSome (fee_rate : ℚ) (final : PriceDict)
    (slug : String) (now : ℕ) (st : TraderState) (token_id t : String)
    (h : (((PaperTrader.expire_sell_token fee_rate final slug now st
        token_id).portfolio.get_position t).isSome)) :
    (st.portfolio.get_position t).isSome := by
  revert h
  by_cases he : token_id = ""
  · simp only [PaperTrader.expire_sell_token, if_pos he]; exact id
  rw [PaperTrader.expire_sell_token, if_neg he]
  cases hf : st.portfolio.get_position token_id with
  | none => exact id
  | some pos => exact get_position_execute_sell_isSome _ _ _ _ _ _

theorem trim_hist_token_portfolio (st : TraderState) (token_id : String) :
    (PaperTrader.trim_hist_token st token_id).portfolio = st.portfolio := by
  simp only [PaperTrader.trim_hist_token]
  split_ifs <;> rfl

/-- Processing one expired market only removes positions. -/
theorem process_expired_market_isSome (fee_rate : ℚ) (final : PriceDict)
    (now : ℕ) (st : TraderState) (m : Market) (t : String)
    (h : (((PaperTrader.process_expired_market fee_rate final now st
        m).portfolio.get_position t).isSome)) :
    (st.portfolio.get_position t).isSome := by
  simp only [PaperTrader.process_expired_market] at h
  rw [trim_hist_token_portfolio, trim_hist_token_portfolio] at h
  have h1 := expire_sell_token_isSome _ _ _ _ _ _ _ h
  have h2 := expire_sell_token_isSome _ _ _ _ _ _ _ h1
  exact h2

/-- `_handle_expired_markets` only removes positions. -/
theorem handle_expired_markets_isSome (fee_rate : ℚ) (now : ℕ)
    (st : TraderState) (current_active : List Market)
    (past_end : Market → Bool) (t : String)
    (h : (((PaperTrader.handle_expired_markets fee_rate now st current_active
        past_end).portfolio.get_position t).isSome)) :
    (st.portfolio.get_position t).isSome := by
  rw [PaperTrader.handle_expired_markets] at h
  revert h
  cases st.markets.filter (PaperTrader.is_expired current_active past_end) with
  | nil => exact id
  | cons m rest =>
      refine foldl_invariant
        (fun (s : TraderState) =>
          ((s.portfolio.get_position t).isSome) →
          (st.portfolio.get_position t).isSome)
        _ _ _ id ?_
      intro s' m' _ hP h'
      exact hP (process_expired_market_isSome _ _ _ _ _ _ h')

theorem add_new_market_portfolio (cap : ℕ) (s : TraderState) (m : Market) :
    (PaperTrader.add_new_market cap s m).portfolio = s.portfolio := by
  simp only [PaperTrader.add_new_market]
  split_ifs <;> rfl

theorem foldl_add_new_market_portfolio (cap : ℕ) (l : List Market)
    (s : TraderState) :
    (l.foldl (PaperTrader.add_new_market cap) s).portfolio = s.portfolio := by
  induction l generalizing s with
  | nil => rfl
  | cons m rest ih => rw [List.foldl_cons, ih, add_new_market_portfolio]

/-- A market refresh only removes positions. -/
theorem refresh_markets_isSome (fee_rate : ℚ) (cap : ℕ) (now : ℕ)
    (st : TraderState) (fresh : List Market) (past_end : Market → Bool)
    (t : String)
    (h : (((PaperTrader.refresh_markets fee_rate cap now st fresh
        past_end).portfolio.get_position t).isSome)) :
    (st.portfolio.get_position t).isSome := by
  rw [PaperTrader.refresh_markets] at h
  rw [foldl_add_new_market_portfolio] at h
  exact handle_expired_markets_isSome _ _ _ _ _ _ h

/-- C8: (a) in a live tick, a BUY signal for one outcome token of a binary
market is blocked — the portfolio is untouched and the risk gate is never
consulted — whenever a position is open on the opposite outcome token, in
either direction; (b) consequently, starting from any state not holding
both sides, no sequence of live-session events (ticks over the market's
own tokens, refreshes, session-end liquidations) ever reaches a state
holding the YES and the NO token of the same market simultaneously. -/
theorem mutual_exclusion (fee_rate : ℚ) (rm : RiskManager)
    (strategy : Strategy) (cap : ℕ) (m : Market)
    (hyes : m.yes_token_id ≠ "") (hno : m.no_token_id ≠ "")
    (hne : m.yes_token_id ≠ m.no_token_id)
    (hsig : ∀ tok hist cp t, (strategy tok hist cp t).token_id = tok) :
    (∀ (now : ℕ) (lbl : String) (bar : ℚ) (st : TraderState),
      (∀ hist cp, (strategy m.yes_token_id hist cp now).action = "BUY") →
      ((st.portfolio.get_position m.no_token_id).isSome) →
      (PaperTrader.run_tick_token fee_rate rm strategy now m m.yes_token_id
          lbl (some bar) st).portfolio = st.portfolio ∧
      (PaperTrader.run_tick_token fee_rate rm strategy now m m.yes_token_id
          lbl (some bar) st).risk_checks = st.risk_checks) ∧
    (∀ (now : ℕ) (lbl : String) (bar : ℚ) (st : TraderState),
      (∀ hist cp, (strategy m.no_token_id hist cp now).action = "BUY") →
      ((st.portfolio.get_position m.yes_token_id).isSome) →
      (PaperTrader.run_tick_token fee_rate rm strategy now m m.no_token_id
          lbl (some bar) st).portfolio = st.portfolio ∧
      (PaperTrader.run_tick_token fee_rate rm strategy now m m.no_token_id
          lbl (some bar) st).risk_checks = st.risk_checks) ∧
    (∀ (events : List PaperTrader.LiveEvent) (st0 : TraderState),
      (∀ ev ∈ events, ∀ market' token' lbl' bar' now',
        ev = PaperTrader.LiveEvent.tick market' token' lbl' bar' now' →
        (token' = market'.yes_token_id ∨ token' = market'.no_token_id) ∧
        ((token' = m.yes_token_id ∨ token' = m.no_token_id) → market' = m)) →
      ¬(((st0.portfolio.get_position m.yes_token_id).isSome) ∧
        ((st0.portfolio.get_position m.no_token_id).isSome)) →
      ¬((((PaperTrader.apply_events fee_rate rm strategy cap events
            st0).portfolio.get_position m.yes_token_id).isSome) ∧
        (((PaperTrader.apply_events fee_rate rm strategy cap events
            st0).portfolio.get_position m.no_token_id).isSome))) := by
  refine ⟨?_, ?_, ?_⟩
  · -- (a) YES side processed while NO side held
    intro now lbl bar st hbuy hheld
    have hact := hbuy ((PaperTrader.histFor st.price_history m.yes_token_id
      ++ [bar]).dropLast) bar
    simp only [PaperTrader.run_tick_token, if_neg hyes]
    by_cases hlen : (PaperTrader.histFor st.price_history m.yes_token_id
        ++ [bar]).length < 2
    · rw [if_pos hlen]
      exact ⟨rfl, rfl⟩
    rw [if_neg hlen]
    rw [if_neg (show ¬(strategy m.yes_token_id (PaperTrader.histFor
        st.price_history m.yes_token_id ++ [bar]).dropLast bar now).action
        = "HOLD" by rw [hact]; decide)]
    simp only [if_true]
    rw [if_pos ⟨hact, hno, hheld⟩]
    exact ⟨rfl, rfl⟩
  · -- (a) NO side processed while YES side held
    intro now lbl bar st hbuy hheld
    have hact := hbuy ((PaperTrader.histFor st.price_history m.no_token_id
      ++ [bar]).dropLast) bar
    simp only [PaperTrader.run_tick_token, if_neg hno]
    by_cases hlen : (PaperTrader.histFor st.price_history m.no_token_id
        ++ [bar]).length < 2
    · rw [if_pos hlen]
      exact ⟨rfl, rfl⟩
    rw [if_neg hlen]
    rw [if_neg (show ¬(strategy m.no_token_id (PaperTrader.histFor
        st.price_history m.no_token_id ++ [bar]).dropLast bar now).action
        = "HOLD" by rw [hact]; decide)]
    have hopp : (if m.no_token_id = m.yes_token_id then m.no_token_id
        else m.yes_token_id) = m.yes_token_id :=
      if_neg (fun hc => hne (hc.symm))
    rw [hopp]
    rw [if_pos ⟨hact, hyes, hheld⟩]
    exact ⟨rfl, rfl⟩
  · -- (b) the invariant over arbitrary event sequences
    intro events st0 hok h0
    refine foldl_invariant
      (fun (s : TraderState) =>
        ¬(((s.portfolio.get_position m.yes_token_id).isSome) ∧
          ((s.portfolio.get_position m.no_token_id).isSome)))
      _ _ _ h0 ?_
    intro s ev hev hP
    cases ev with
    | refresh fresh past_end now' =>
        intro hc
        exact hP ⟨refresh_markets_isSome _ _ _ _ _ _ _ hc.1,
          refresh_markets_isSome _ _ _ _ _ _ _ hc.2⟩
    | close_token tok now' =>
        intro hc
        simp only [PaperTrader.apply_event] at hc
        exact hP ⟨close_position_isSome _ _ _ _ _ _ hc.1,
          close_position_isSome _ _ _ _ _ _ hc.2⟩
    | tick market' token' lbl' bar' now' =>
        obtain ⟨htok, hm⟩ := hok _ hev market' token' lbl' bar' now' rfl
        simp only [PaperTrader.apply_event]
        rcases run_tick_token_portfolio_cases fee_rate rm strategy now'
            market' token' lbl' bar' s with
          hsame | ⟨hist, price, amt, hnoblock, hbuyact, heq⟩ |
          ⟨hist, price, heq⟩
        · intro hc
          rw [hsame] at hc
          exact hP hc
        · -- a BUY was executed
          have hsigtok : ({ strategy token' hist price now' with
              outcome := lbl' } : Signal).token_id = token' :=
            hsig token' hist price now'
          by_cases hmem : token' = m.yes_token_id ∨ token' = m.no_token_id
          · have hmkt : market' = m := hm hmem
            rw [hmkt] at hnoblock
            cases hmem with
            | inl htokyes =>
                rw [if_pos htokyes] at hnoblock
                have hnot_no : ¬((s.portfolio.get_position
                    m.no_token_id).isSome) :=
                  fun hsome => hnoblock ⟨hno, hsome⟩
                intro hc
                rw [heq] at hc
                have hne' : m.no_token_id ≠ ({ strategy token' hist price now'
                    with outcome := lbl' } : Signal).token_id := by
                  rw [hsigtok, htokyes]
                  exact fun hc' => hne hc'.symm
                rw [get_position_execute_buy_ne _ _ _ _ _ _ _ hne'] at hc
                exact hnot_no hc.2
            | inr htokno =>
                rw [if_neg (fun hc' : token' = m.yes_token_id =>
                  hne (htokno.symm.trans hc').symm)] at hnoblock
                have hnot_yes : ¬((s.portfolio.get_position
                    m.yes_token_id).isSome) :=
                  fun hsome => hnoblock ⟨hyes, hsome⟩
                intro hc
                rw [heq] at hc
                have hne' : m.yes_token_id ≠ ({ strategy token' hist price
                    now' with outcome := lbl' } : Signal).token_id := by
                  rw [hsigtok, htokno]
                  exact hne
                rw [get_position_execute_buy_ne _ _ _ _ _ _ _ hne'] at hc
                exact hnot_yes hc.1
          · push_neg at hmem
            intro hc
            rw [heq] at hc
            have hne1 : m.yes_token_id ≠ ({ strategy token' hist price now'
                with outcome := lbl' } : Signal).token_id := by
              rw [hsigtok]
              exact fun hc' => hmem.1 hc'.symm
            have hne2 : m.no_token_id ≠ ({ strategy token' hist price now'
                with outcome := lbl' } : Signal).token_id := by
              rw [hsigtok]
              exact fun hc' => hmem.2 hc'.symm
            rw [get_position_execute_buy_ne _ _ _ _ _ _ _ hne1,
              get_position_execute_buy_ne _ _ _ _ _ _ _ hne2] at hc
            exact hP hc
        · -- a SELL was executed: positions are only removed
          intro hc
          rw [heq] at hc
          exact hP ⟨get_position_execute_sell_isSome _ _ _ _ _ _ hc.1,
            get_position_execute_sell_isSome _ _ _ _ _ _ hc.2⟩

/-- C8 witness: with the NO side held, a tick over the YES token of the
same market under an always-BUY strategy leaves the portfolio untouched. -/
theorem mutual_exclusion_witness :
    (PaperTrader.run_tick_token TRADE_FEE_RATE the_risk_manager
        (fun tok _ _ _ => ⟨"BUY", tok, "YES", 1/2, "r", 1⟩) 5
        ⟨"m", "q", "YT", "NT"⟩ "YT" "YES" (some (1/2))
        ⟨⟨100, 1000, [⟨"NT", "NO", "m", 10, 1/2, 0⟩], []⟩,
          [], [("YT", [1/2, 1/2])], [], [], [], [], [], 0, []⟩).portfolio
      = ⟨100, 1000, [⟨"NT", "NO", "m", 10, 1/2, 0⟩], []⟩ :=
  ((mutual_exclusion TRADE_FEE_RATE the_risk_manager
    (fun tok _ _ _ => ⟨"BUY", tok, "YES", 1/2, "r", 1⟩) 10
    ⟨"m", "q", "YT", "NT"⟩ (by decide) (by decide) (by decide)
    (fun _ _ _ _ => rfl)).1 5 "YES" (1/2)
    ⟨⟨100, 1000, [⟨"NT", "NO", "m", 10, 1/2, 0⟩], []⟩,
      [], [("YT", [1/2, 1/2])], [], [], [], [], [], 0, []⟩
    (fun _ _ => rfl) rfl).1

theorem expire_sell_token_expired (fee_rate : ℚ) (final : PriceDict)
    (slug : String) (now : ℕ) (st : TraderState) (token_id : String) :
    (PaperTrader.expire_sell_token fee_rate final slug now st
        token_id).expired_token_ids = st.expired_token_ids := by
  rw [PaperTrader.expire_sell_token]
  split_ifs with he
  · rfl
  cases st.portfolio.get_position token_id <;> rfl

theorem expire_sell_token_markets (fee_rate : ℚ) (final : PriceDict)
    (slug : String) (now : ℕ) (st : TraderState) (token_id : String) :
    (PaperTrader.expire_sell_token fee_rate final slug now st
        token_id).markets = st.markets := by
  rw [PaperTrader.expire_sell_token]
  split_ifs with he
  · rfl
  cases st.portfolio.get_position token_id <;> rfl

/-- The forced-sell log grows by exactly the signal of the token's open
position (if any): one tagged SELL at the last known price, falling back
to the position's average cost. -/
theorem expire_sell_token_forced (fee_rate : ℚ) (final : PriceDict)
    (slug : String) (now : ℕ) (st : TraderState) (token_id : String) :
    (PaperTrader.expire_sell_token fee_rate final slug now st
        token_id).forced_sells.map Prod.fst
      = st.forced_sells.map Prod.fst ++
        (if token_id = "" then []
         else (st.portfolio.get_position token_id).elim []
           (fun pos => [⟨"SELL", token_id, pos.outcome,
             dictGet final token_id pos.avg_cost,
             "Market expired — forced close", 1⟩])) := by
  rw [PaperTrader.expire_sell_token]
  split_ifs with he
  · simp
  cases hf : st.portfolio.get_position token_id with
  | none => simp [hf]
  | some pos =>
      have hfind : find_position st.portfolio.positions token_id = some pos := hf
      simp [hf, Portfolio.execute_sell, hfind]

theorem expire_sell_token_get_position_ne (fee_rate : ℚ) (final : PriceDict)
    (slug : String) (now : ℕ) (st : TraderState) (token_id t : String)
    (h : t ≠ token_id) :
    (PaperTrader.expire_sell_token fee_rate final slug now st
        token_id).portfolio.get_position t = st.portfolio.get_position t := by
  rw [PaperTrader.expire_sell_token]
  split_ifs with he
  · rfl
  cases hf : st.portfolio.get_position token_id with
  | none => rfl
  | some pos =>
      simp only []
      have := get_position_execute_sell_ne fee_rate st.portfolio
        ⟨"SELL", token_id, pos.outcome, dictGet final token_id pos.avg_cost,
          "Market expired — forced close", 1⟩ slug now t h
      exact this

/-- Every forced-sell entry is either pre-existing or a SELL trade matching
its signal's token and price. -/
theorem expire_sell_token_forced_entries (fee_rate : ℚ) (final : PriceDict)
    (slug : String) (now : ℕ) (st : TraderState) (token_id : String) :
    ∀ e ∈ (PaperTrader.expire_sell_token fee_rate final slug now st
        token_id).forced_sells,
      e ∈ st.forced_sells ∨
      (e.2.action = "SELL" ∧ e.2.token_id = e.1.token_id ∧
       e.2.price = e.1.price ∧ e.1.reason = "Market expired — forced close") := by
  intro e he
  rw [PaperTrader.expire_sell_token] at he
  split_ifs at he with h0
  · exact Or.inl he
  revert he
  cases hf : st.portfolio.get_position token_id with
  | none => exact Or.inl
  | some pos =>
      simp only [Portfolio.get_position] at hf
      simp only [Portfolio.get_position, hf, Portfolio.execute_sell]
      intro he
      rcases List.mem_append.mp he with h | h
      · exact Or.inl h
      · rcases List.mem_singleton.mp h with rfl
        exact Or.inr ⟨rfl, rfl, rfl, rfl⟩

theorem trim_hist_token_fields (st : TraderState) (token_id : String) :
    (PaperTrader.trim_hist_token st token_id).expired_token_ids
        = st.expired_token_ids ∧
    (PaperTrader.trim_hist_token st token_id).markets = st.markets ∧
    (PaperTrader.trim_hist_token st token_id).forced_sells
        = st.forced_sells := by
  simp only [PaperTrader.trim_hist_token]
  split_ifs <;> exact ⟨rfl, rfl, rfl⟩

theorem add_new_market_fields (cap : ℕ) (s : TraderState) (m : Market) :
    (PaperTrader.add_new_market cap s m).expired_token_ids
        = s.expired_token_ids ∧
    (PaperTrader.add_new_market cap s m).forced_sells = s.forced_sells := by
  rw [PaperTrader.add_new_market]
  split_ifs <;> exact ⟨rfl, rfl⟩

theorem add_new_market_mem (cap : ℕ) (s : TraderState) (m : Market) :
    ∀ m' ∈ (PaperTrader.add_new_market cap s m).markets,
      m' ∈ s.markets ∨ m' = m := by
  intro m' h
  rw [PaperTrader.add_new_market] at h
  split_ifs at h with hc
  · exact Or.inl h
  all_goals
    rcases List.mem_append.mp h with h' | h'
    · exact Or.inl h'
    · exact Or.inr (List.mem_singleton.mp h')

theorem foldl_add_new_market_fields (cap : ℕ) (l : List Market)
    (s : TraderState) :
    ((l.foldl (PaperTrader.add_new_market cap) s).expired_token_ids
        = s.expired_token_ids) ∧
    ((l.foldl (PaperTrader.add_new_market cap) s).forced_sells
        = s.forced_sells) := by
  induction l generalizing s with
  | nil => exact ⟨rfl, rfl⟩
  | cons m rest ih =>
      rw [List.foldl_cons]
      refine ⟨?_, ?_⟩
      · rw [(ih _).1, (add_new_market_fields cap s m).1]
      · rw [(ih _).2, (add_new_market_fields cap s m).2]

theorem foldl_add_new_market_mem (cap : ℕ) (l : List Market)
    (s : TraderState) :
    ∀ m' ∈ (l.foldl (PaperTrader.add_new_market cap) s).markets,
      m' ∈ s.markets ∨ m' ∈ l := by
  induction l generalizing s with
  | nil => exact fun m' h => Or.inl h
  | cons m rest ih =>
      intro m' h
      rw [List.foldl_cons] at h
      rcases ih _ m' h with h' | h'
      · rcases add_new_market_mem cap s m m' h' with h'' | h''
        · exact Or.inl h''
        · exact Or.inr (h'' ▸ List.mem_cons_self m rest)
      · exact Or.inr (List.mem_cons_of_mem m h')

/-- Processing an expired market blacklists both its token ids. -/
theorem process_expired_market_expired (fee_rate : ℚ) (final : PriceDict)
    (now : ℕ) (st : TraderState) (m : Market) :
    (PaperTrader.process_expired_market fee_rate final now st
        m).expired_token_ids
      = st.expired_token_ids ++ [m.yes_token_id] ++
        (if m.no_token_id = "" then [] else [m.no_token_id]) := by
  simp only [PaperTrader.process_expired_market]
  rw [(trim_hist_token_fields _ _).1, (trim_hist_token_fields _ _).1,
    expire_sell_token_expired, expire_sell_token_expired]

/-- Processing an expired market drops it from the watch list. -/
theorem process_expired_market_markets (fee_rate : ℚ) (final : PriceDict)
    (now : ℕ) (st : TraderState) (m : Market) :
    (PaperTrader.process_expired_market fee_rate final now st m).markets
      = st.markets.filter (fun x => x.yes_token_id ≠ m.yes_token_id) := by
  simp only [PaperTrader.process_expired_market]
  rw [(trim_hist_token_fields _ _).2.1, (trim_hist_token_fields _ _).2.1,
    expire_sell_token_markets, expire_sell_token_markets]

/-- Processing one expired market produces one tagged forced-sell signal
per open position on either outcome side, at the last known price with the
average-cost fallback. -/
theorem process_expired_market_forced (fee_rate : ℚ) (final : PriceDict)
    (now : ℕ) (st : TraderState) (m : Market)
    (hyes : m.yes_token_id ≠ "") (hne : m.yes_token_id ≠ m.no_token_id) :
    (PaperTrader.process_expired_market fee_rate final now st
        m).forced_sells.map Prod.fst
      = st.forced_sells.map Prod.fst ++
        ((st.portfolio.get_position m.yes_token_id).elim []
          (fun pos => [⟨"SELL", m.yes_token_id, pos.outcome,
            dictGet final m.yes_token_id pos.avg_cost,
            "Market expired — forced close", 1⟩])) ++
        (if m.no_token_id = "" then []
         else (st.portfolio.get_position m.no_token_id).elim []
          (fun pos => [⟨"SELL", m.no_token_id, pos.outcome,
            dictGet final m.no_token_id pos.avg_cost,
            "Market expired — forced close", 1⟩])) := by
  simp only [PaperTrader.process_expired_market]
  rw [(trim_hist_token_fields _ _).2.2, (trim_hist_token_fields _ _).2.2]
  rw [expire_sell_token_forced, expire_sell_token_forced]
  rw [expire_sell_token_get_position_ne _ _ _ _ _ _ _
    (show m.no_token_id ≠ m.yes_token_id from fun hc => hne hc.symm)]
  rw [if_neg hyes]

/-- Every forced-sell entry added while processing an expired market is a
SELL trade matching its tagged signal. -/
theorem process_expired_market_forced_entries (fee_rate : ℚ)
    (final : PriceDict) (now : ℕ) (st : TraderState) (m : Market) :
    ∀ e ∈ (PaperTrader.process_expired_market fee_rate final now st
        m).forced_sells,
      e ∈ st.forced_sells ∨
      (e.2.action = "SELL" ∧ e.2.token_id = e.1.token_id ∧
       e.2.price = e.1.price ∧ e.1.reason = "Market expired — forced close") := by
  intro e he
  simp only [PaperTrader.process_expired_market] at he
  rw [(trim_hist_token_fields _ _).2.2, (trim_hist_token_fields _ _).2.2] at he
  rcases expire_sell_token_forced_entries _ _ _ _ _ _ e he with h | h
  · rcases expire_sell_token_forced_entries _ _ _ _ _ _ e h with h' | h'
    · exact Or.inl h'
    · exact Or.inr h'
  · exact Or.inr h

/-- `_handle_expired_markets` when exactly one watched market is expired:
it reduces to processing that market at the last known prices. -/
theorem handle_expired_markets_eq (fee_rate : ℚ) (now : ℕ)
    (st : TraderState) (current_active : List Market)
    (past_end : Market → Bool) (m : Market)
    (hexp : st.markets.filter (PaperTrader.is_expired current_active past_end)
      = [m]) :
    PaperTrader.handle_expired_markets fee_rate now st current_active past_end
      = PaperTrader.process_expired_market fee_rate
          (PaperTrader.get_latest_prices st.price_history) now st m := by
  simp only [PaperTrader.handle_expired_markets, hexp]
  rw [List.foldl_cons, List.foldl_nil]

/-- The blacklist only grows across `_handle_expired_markets`. -/
theorem handle_expired_markets_mem_expired (fee_rate : ℚ) (now : ℕ)
    (st : TraderState) (current_active : List Market)
    (past_end : Market → Bool) (t : String) (h : t ∈ st.expired_token_ids) :
    t ∈ (PaperTrader.handle_expired_markets fee_rate now st current_active
        past_end).expired_token_ids := by
  rw [PaperTrader.handle_expired_markets]
  cases st.markets.filter (PaperTrader.is_expired current_active past_end) with
  | nil => exact h
  | cons m rest =>
      refine foldl_invariant
        (fun (s : TraderState) => t ∈ s.expired_token_ids) _ _ _ h ?_
      intro s' m' _ hP
      rw [process_expired_market_expired]
      exact List.mem_append_left _ (List.mem_append_left _ hP)

/-- `_handle_expired_markets` never adds a market to the watch list. -/
theorem handle_expired_markets_markets_subset (fee_rate : ℚ) (now : ℕ)
    (st : TraderState) (current_active : List Market)
    (past_end : Market → Bool) (m' : Market)
    (h : m' ∈ (PaperTrader.handle_expired_markets fee_rate now st
        current_active past_end).markets) : m' ∈ st.markets := by
  rw [PaperTrader.handle_expired_markets] at h
  revert h
  cases st.markets.filter (PaperTrader.is_expired current_active past_end) with
  | nil => exact id
  | cons m rest =>
      refine foldl_invariant
        (fun (s : TraderState) => m' ∈ s.markets → m' ∈ st.markets)
        _ _ _ id ?_
      intro s' m'' _ hP h
      rw [process_expired_market_markets] at h
      exact hP (List.mem_filter.mp h).1

/-- One refresh preserves "this token is blacklisted and not watched". -/
theorem refresh_markets_preserves_blacklist (fee_rate : ℚ) (cap now : ℕ)
    (s : TraderState) (fresh : List Market) (past_end : Market → Bool)
    (t : String) (hmem : t ∈ s.expired_token_ids)
    (hmk : ∀ m' ∈ s.markets, m'.yes_token_id ≠ t) :
    t ∈ (PaperTrader.refresh_markets fee_rate cap now s fresh
        past_end).expired_token_ids ∧
    ∀ m' ∈ (PaperTrader.refresh_markets fee_rate cap now s fresh
        past_end).markets, m'.yes_token_id ≠ t := by
  rw [PaperTrader.refresh_markets]
  constructor
  · rw [(foldl_add_new_market_fields _ _ _).1]
    exact handle_expired_markets_mem_expired _ _ _ _ _ _ hmem
  · intro m' h
    rcases foldl_add_new_market_mem _ _ _ m' h with h' | h'
    · exact hmk m' (handle_expired_markets_markets_subset _ _ _ _ _ _ h')
    · have husable : m' ∈ fresh.filter
          (PaperTrader.is_usable s.expired_token_ids past_end) :=
        (List.mem_filter.mp h').1
      have hus : PaperTrader.is_usable s.expired_token_ids past_end m'
          = true := (List.mem_filter.mp husable).2
      rw [PaperTrader.is_usable] at hus
      simp only [Bool.and_eq_true, Bool.not_eq_true'] at hus
      intro hc
      rw [hc] at hus
      have hct : s.expired_token_ids.contains t = true :=
        List.elem_eq_true_of_mem hmem
      exact Bool.false_ne_true (hus.1.symm.trans hct)

/-- C9: when a refresh finds exactly one watched market expired (absent
from the usable fetched list or past its close), then after the refresh
(a) both its token ids are blacklisted and no watched market carries its
YES token any more; (b) the forced-sell log grows by exactly one SELL
signal tagged "Market expired — forced close" per open position on either
outcome side, priced at the last known price with average-cost fallback;
(b') every forced-sell entry is a SELL trade matching its signal; and
(c) a blacklisted token never re-enters the watch list in any sequence of
later refreshes. -/
theorem expired_market_lifecycle (fee_rate : ℚ) (cap now : ℕ)
    (st : TraderState) (fresh : List Market) (past_end : Market → Bool)
    (m : Market)
    (hyes : m.yes_token_id ≠ "")
    (hne : m.yes_token_id ≠ m.no_token_id)
    (hexp : st.markets.filter (PaperTrader.is_expired
        (fresh.filter (PaperTrader.is_usable st.expired_token_ids past_end))
        past_end) = [m])
    (husable : ∀ m' ∈ fresh.filter (PaperTrader.is_usable
        st.expired_token_ids past_end), m'.yes_token_id ≠ m.yes_token_id) :
    (m.yes_token_id ∈ (PaperTrader.refresh_markets fee_rate cap now st fresh
        past_end).expired_token_ids ∧
     (m.no_token_id ≠ "" → m.no_token_id ∈ (PaperTrader.refresh_markets
        fee_rate cap now st fresh past_end).expired_token_ids) ∧
     (∀ m' ∈ (PaperTrader.refresh_markets fee_rate cap now st fresh
        past_end).markets, m'.yes_token_id ≠ m.yes_token_id)) ∧
    ((PaperTrader.refresh_markets fee_rate cap now st fresh
        past_end).forced_sells.map Prod.fst
      = st.forced_sells.map Prod.fst ++
        ((st.portfolio.get_position m.yes_token_id).elim []
          (fun pos => [⟨"SELL", m.yes_token_id, pos.outcome,
            dictGet (PaperTrader.get_latest_prices st.price_history)
              m.yes_token_id pos.avg_cost,
            "Market expired — forced close", 1⟩])) ++
        (if m.no_token_id = "" then []
         else (st.portfolio.get_position m.no_token_id).elim []
          (fun pos => [⟨"SELL", m.no_token_id, pos.outcome,
            dictGet (PaperTrader.get_latest_prices st.price_history)
              m.no_token_id pos.avg_cost,
            "Market expired — forced close", 1⟩]))) ∧
    (∀ e ∈ (PaperTrader.refresh_markets fee_rate cap now st fresh
        past_end).forced_sells,
      e ∈ st.forced_sells ∨
      (e.2.action = "SELL" ∧ e.2.token_id = e.1.token_id ∧
       e.2.price = e.1.price ∧
       e.1.reason = "Market expired — forced close")) ∧
    (∀ (t : String) (steps : List (List Market × (Market → Bool) × ℕ))
        (s : TraderState),
      t ∈ s.expired_token_ids →
      (∀ m' ∈ s.markets, m'.yes_token_id ≠ t) →
      (t ∈ (steps.foldl (fun acc step => PaperTrader.refresh_markets fee_rate
          cap step.2.2 acc step.1 step.2.1) s).expired_token_ids ∧
       ∀ m' ∈ (steps.foldl (fun acc step => PaperTrader.refresh_markets
          fee_rate cap step.2.2 acc step.1 step.2.1) s).markets,
         m'.yes_token_id ≠ t)) := by
  have hhandle := handle_expired_markets_eq fee_rate now st
    (fresh.filter (PaperTrader.is_usable st.expired_token_ids past_end))
    past_end m hexp
  refine ⟨⟨?_, ?_, ?_⟩, ?_, ?_, ?_⟩
  · simp only [PaperTrader.refresh_markets]
    rw [(foldl_add_new_market_fields _ _ _).1, hhandle,
      process_expired_market_expired]
    exact List.mem_append_left _
      (List.mem_append_right _ (List.mem_singleton_self _))
  · intro hno
    simp only [PaperTrader.refresh_markets]
    rw [(foldl_add_new_market_fields _ _ _).1, hhandle,
      process_expired_market_expired, if_neg hno]
    exact List.mem_append_right _ (List.mem_singleton_self _)
  · intro m' h
    simp only [PaperTrader.refresh_markets] at h
    rcases foldl_add_new_market_mem _ _ _ m' h with h' | h'
    · rw [hhandle, process_expired_market_markets] at h'
      exact of_decide_eq_true (List.mem_filter.mp h').2
    · exact husable m' (List.mem_filter.mp h').1
  · simp only [PaperTrader.refresh_markets]
    rw [(foldl_add_new_market_fields _ _ _).2, hhandle,
      process_expired_market_forced _ _ _ _ _ hyes hne]
  · intro e he
    simp only [PaperTrader.refresh_markets] at he
    rw [(foldl_add_new_market_fields _ _ _).2, hhandle] at he
    exact process_expired_market_forced_entries _ _ _ _ _ e he
  · intro t steps s hmem hmk
    refine foldl_invariant
      (fun (s' : TraderState) => t ∈ s'.expired_token_ids ∧
        ∀ m' ∈ s'.markets, m'.yes_token_id ≠ t)
      _ _ _ ⟨hmem, hmk⟩ ?_
    intro s' step _ hP
    exact refresh_markets_preserves_blacklist fee_rate cap step.2.2 s'
      step.1 step.2.1 t hP.1 hP.2

/-- C9 witness: a single watched market with an open YES position, absent
from the fetched list: after the refresh its YES token is blacklisted. -/
theorem expired_market_lifecycle_witness :
    "YT" ∈ (PaperTrader.refresh_markets TRADE_FEE_RATE 10 7
      ⟨⟨100, 1000, [⟨"YT", "YES", "m", 10, 1/2, 0⟩], []⟩,
        [⟨"m", "q", "YT", "NT"⟩], [("YT", [3/5])], [], [], [], [], [], 0, []⟩
      [] (fun _ => false)).expired_token_ids :=
  (expired_market_lifecycle TRADE_FEE_RATE 10 7
    ⟨⟨100, 1000, [⟨"YT", "YES", "m", 10, 1/2, 0⟩], []⟩,
      [⟨"m", "q", "YT", "NT"⟩], [("YT", [3/5])], [], [], [], [], [], 0, []⟩
    [] (fun _ => false) ⟨"m", "q", "YT", "NT"⟩ (by decide) (by decide) rfl
    (fun m' h => absurd h (List.not_mem_nil m'))).1.1

end BurryBot
